import Mathlib

/-!
Verification development for the resumable podcast-summarization pipeline
(`src/progress_manager.py`, `src/summarize.py`).

The Python source is shallowly embedded as executable Lean definitions:

* strings are Lean `String`s manipulated through their character lists
  (structural recursion, so every definition evaluates by kernel reduction);
* `datetime.now()` is a logical clock: every call to `now()` consumes one
  tick of a `Nat` counter that is threaded explicitly;
* the external text-generation backend is an oracle
  `ApiCall → Except String String` (the orchestrator) respectively
  `Nat → ApiResponse` (per attempt, for the retrying client);
* the caller-supplied `progress_callback` is an oracle
  `ProgressEvent → Except String Unit`; an `Except.error` models the
  callback raising an exception inside `summarize_transcript`;
* the float `overlap_ratio` is modelled as a rational number, and Python's
  `int(len * ratio)` truncation as natural-number division
  `len * ratio.num / ratio.den` (the configured ratios are non-negative);
* writes performed by `ProgressManager.save_task` become entries of an
  explicit key-value store, and each `save_task` call made by the
  orchestrator is logged in a `saves` list.
-/

/-! ## Python-style string primitives (over character lists) -/

/-- Characters treated as whitespace by the embedded `str.strip()`. -/
def pyWs (c : Char) : Bool :=
  c = ' ' ∨ c = '\t' ∨ c = '\n' ∨ c = '\r'

/-- Remove leading and trailing whitespace from a character list. -/
def trimChars (cs : List Char) : List Char :=
  ((cs.dropWhile pyWs).reverse.dropWhile pyWs).reverse

/-- Embedding of Python `str.strip()`. -/
def pyStrip (s : String) : String :=
  ⟨trimChars s.data⟩

/-- Embedding of Python `str.split(c)` for a one-character separator:
splits at every occurrence, keeping empty pieces. -/
def splitOnChar (c : Char) : List Char → List (List Char)
  | [] => [[]]
  | x :: rest =>
    match splitOnChar c rest with
    | [] => [[]]
    | r :: rs => if x = c then [] :: r :: rs else (x :: r) :: rs

/-- `[p.strip() for p in text.split('\n') if p.strip()]`
(line 149 of `summarize.py`). -/
def pyParagraphs (text : String) : List String :=
  ((splitOnChar '\n' text.data).map (fun cs => (⟨trimChars cs⟩ : String))).filter
    (fun p => p ≠ "")

/-- Does `needle` occur at the very front of `hay`? -/
def leadingRun : List Char → List Char → Bool
  | [], _ => true
  | _ :: _, [] => false
  | a :: as, b :: bs => a = b && leadingRun as bs

/-- Does `needle` occur anywhere inside `hay`? (Python `needle in hay`.) -/
def containsList (hay needle : List Char) : Bool :=
  leadingRun needle hay ||
    match hay with
    | [] => false
    | _ :: rest => containsList rest needle

/-- Substring test on strings. -/
def strContains (hay needle : String) : Bool :=
  containsList hay.data needle.data

/-- The suffix of `hay` that follows the first occurrence of `needle`,
if `needle` occurs at all.  Used to embed `re.search` patterns of the
shape `A.*B`. -/
def dropToAfter (hay needle : List Char) : Option (List Char) :=
  if leadingRun needle hay then some (hay.drop needle.length)
  else
    match hay with
    | [] => none
    | _ :: rest => dropToAfter rest needle

/-- `re.search(n1 ++ '.*' ++ n2, hay)` succeeds (paragraphs contain no
newline, so `.*` is unrestricted). -/
def containsSeq (hay n1 n2 : List Char) : Bool :=
  match dropToAfter hay n1 with
  | some r => containsList r n2
  | none => false

/-- Embedding of Python `str.lower()` (ASCII case only; the Chinese
indicator words are unaffected either way). -/
def pyLower (s : String) : String :=
  ⟨s.data.map Char.toLower⟩

/-- Python slice `s[:n]`. -/
def strTake (s : String) (n : Nat) : String :=
  ⟨s.data.take n⟩

/-- Python slice `s[n:]`. -/
def strDrop (s : String) (n : Nat) : String :=
  ⟨s.data.drop n⟩

/-- Python slice `s[-k:]`: the whole string when `k = 0` (the `-0`
quirk), otherwise the last `k` characters. -/
def pyTailSlice (s : String) (k : Nat) : String :=
  if k = 0 then s else ⟨s.data.drop (s.data.length - k)⟩

/-- Python `int(n * ratio)` for a natural `n` and a non-negative
rational `ratio`: truncation of the exact product, computed as
`⌊n · num / den⌋` on naturals so that it evaluates by kernel
reduction. -/
def pyIntMul (n : Nat) (ratio : ℚ) : Nat :=
  n * ratio.num.toNat / ratio.den

/-! ## Timestamp detection

`re.search(r'\[(\d{1,2}):(\d{2}):(\d{2})\]', paragraph)` followed by
`f"{g1}:{g2}:{g3}"` (lines 158–160 of `summarize.py`). -/

/-- Try to match the timestamp pattern at the head of the suffix,
preferring the greedy two-digit hour. -/
def matchTimeAt : List Char → Option String
  | '[' :: d1 :: d2 :: ':' :: m1 :: m2 :: ':' :: s1 :: s2 :: ']' :: _ =>
    if d1.isDigit ∧ d2.isDigit ∧ m1.isDigit ∧ m2.isDigit ∧ s1.isDigit ∧ s2.isDigit then
      some ⟨[d1, d2, ':', m1, m2, ':', s1, s2]⟩
    else none
  | _ => none

/-- One-digit-hour fallback at the head of the suffix. -/
def matchTimeAt1 : List Char → Option String
  | '[' :: d1 :: ':' :: m1 :: m2 :: ':' :: s1 :: s2 :: ']' :: _ =>
    if d1.isDigit ∧ m1.isDigit ∧ m2.isDigit ∧ s1.isDigit ∧ s2.isDigit then
      some ⟨[d1, ':', m1, m2, ':', s1, s2]⟩
    else none
  | _ => none

/-- Leftmost (greedy-first) search for the timestamp pattern. -/
def searchTimeAux : List Char → Option String
  | [] => none
  | c :: rest =>
    match matchTimeAt (c :: rest) with
    | some t => some t
    | none =>
      match matchTimeAt1 (c :: rest) with
      | some t => some t
      | none => searchTimeAux rest

/-- Embedding of the timestamp search on a paragraph. -/
def searchTime (p : String) : Option String :=
  searchTimeAux p.data

/-! ## `TextSegmenter._detect_topic_change` (lines 219–250) -/

/-- The fixed topic-transition vocabulary. -/
def topic_indicators : List String :=
  ["接下来", "然后", "另外", "此外", "换个话题", "说到",
   "谈到", "关于", "我们再来看", "下面", "现在", "最后",
   "总结", "总的来说", "综上"]

/-- First Q/A pattern `^[问题|提问|主持人|嘉宾][:：]`: as written in the
source this is a character class, so it matches one leading character
among those characters (including the literal bar) followed by a colon. -/
def qaLeadClass (p : String) : Bool :=
  match p.data with
  | c1 :: c2 :: _ =>
    (['问', '题', '提', '主', '持', '人', '嘉', '宾', '|'].contains c1) &&
      (c2 = ':' ∨ c2 = '：')
  | _ => false

/-- Patterns `^Q[:：]` and `^A[:：]`. -/
def qaLetterColon (letter : Char) (p : String) : Bool :=
  match p.data with
  | c1 :: c2 :: _ => c1 = letter && (c2 = ':' ∨ c2 = '：')
  | _ => false

/-- Pattern `怎么.*看.*[？?]`. -/
def qaHowLook (p : String) : Bool :=
  match dropToAfter p.data "怎么".data with
  | some r1 =>
    match dropToAfter r1 "看".data with
    | some r2 => containsList r2 ['？'] || containsList r2 ['?']
    | none => false
  | none => false

/-- Embedding of `TextSegmenter._detect_topic_change`. -/
def detect_topic_change (p : String) : Bool :=
  let lower := pyLower p
  topic_indicators.any (fun ind => strContains lower ind) ||
    qaLeadClass p ||
    qaLetterColon 'Q' p ||
    qaLetterColon 'A' p ||
    containsSeq p.data "那么".data "问题是".data ||
    containsSeq p.data "你觉得".data "吗？".data ||
    containsSeq p.data "你觉得".data "吗?".data ||
    qaHowLook p

/-! ## `TextSegmenter.segment_by_topic` (lines 146–217) -/

/-- A produced segment (the dicts built at lines 182–187 / 209–215). -/
structure Segment where
  content : String
  start_time : Option String
  length : Nat
  index : Nat
deriving DecidableEq, Repr

/-- The loop state of `segment_by_topic`: the accumulated segments, the
running buffer `current_segment`, the tracked `current_length`, and
`segment_start_time`. -/
structure SegAcc where
  segments : List Segment
  cur : String
  curLen : Nat
  startTime : Option String
deriving Repr

/-- Lines 158–160: record the first embedded timestamp while
`segment_start_time` is unset. -/
def segStTime (p : String) (acc : SegAcc) : Option String :=
  match searchTime p, acc.startTime with
  | some t, none => some t
  | _, _ => acc.startTime

/-- The `should_split` condition of lines 171–175; the
`i == len(paragraphs) - 1` test becomes `rest = []`. -/
abbrev shouldSplitCond (det : String → Bool) (minL maxL : Nat) (p : String)
    (rest : List String) (acc : SegAcc) : Prop :=
  acc.curLen + p.length > maxL ∨ (det p = true ∧ minL ≤ acc.curLen) ∨ rest = []

/-- The `for i, paragraph in enumerate(paragraphs)` loop of
`segment_by_topic`, parameterized by the topic-change detector. -/
def segLoop (det : String → Bool) (minL maxL : Nat) (ratio : ℚ) :
    List String → SegAcc → SegAcc
  | [], acc => acc
  | p :: rest, acc =>
    let st := segStTime p acc
    if shouldSplitCond det minL maxL p rest acc ∧ acc.cur ≠ "" then
      if rest = [] then
        let seg0 : Segment :=
          ⟨pyStrip acc.cur, st, acc.cur.length, acc.segments.length + 1⟩
        let cur1 := acc.cur ++ "\n" ++ p
        let seg1 := { seg0 with content := pyStrip cur1, length := cur1.length }
        segLoop det minL maxL ratio rest
          ⟨acc.segments ++ [seg1], cur1, acc.curLen, st⟩
      else
        let cur1 := acc.cur ++ "\n" ++ p
        let seg : Segment :=
          ⟨pyStrip cur1, st, cur1.length, acc.segments.length + 1⟩
        let k := pyIntMul cur1.length ratio
        let cur2 := pyTailSlice cur1 k ++ "\n" ++ p
        segLoop det minL maxL ratio rest
          ⟨acc.segments ++ [seg], cur2, cur2.length, none⟩
    else
      let cur' := if acc.cur = "" then p else acc.cur ++ "\n" ++ p
      segLoop det minL maxL ratio rest
        ⟨acc.segments, cur', cur'.length, st⟩

/-- `segment_by_topic` with an explicit topic-change detector (the
algorithm calls `self._detect_topic_change`; factoring the detector out
lets the spec's worked example supply its own marker vocabulary). -/
def segmentByTopicWith (det : String → Bool) (minL maxL : Nat) (ratio : ℚ)
    (text : String) : List Segment :=
  let ps := pyParagraphs text
  let acc := segLoop det minL maxL ratio ps ⟨[], "", 0, none⟩
  if acc.cur ≠ "" ∧ acc.segments = [] then
    [⟨pyStrip acc.cur, acc.startTime, acc.cur.length, 1⟩]
  else acc.segments

/-- Embedding of `TextSegmenter.segment_by_topic`. -/
def segment_by_topic (minL maxL : Nat) (ratio : ℚ) (text : String) :
    List Segment :=
  segmentByTopicWith detect_topic_change minL maxL ratio text

/-! ## `AIModelClient` (lines 22–135) -/

/-- Outcome of one HTTP request attempt, as classified by the
`except` clauses of `call_api`. -/
inductive ApiResponse where
  | ok (text : String)
  | timeout (msg : String)
  | httpError (status : Nat) (msg : String)
  | networkError (msg : String)
  | badFormat (msg : String)
  | otherError (msg : String)
deriving Repr

/-- `_calculate_delay` (lines 44–48). -/
def calculate_delay (delaySeconds : Nat) (expo : Bool) (attempt : Nat) : Nat :=
  if expo then delaySeconds * 2 ^ (attempt - 1) else delaySeconds

/-- `f"请求超时 (第{attempt}次尝试): {e}"`. -/
def timeoutMsg (attempt : Nat) (m : String) : String :=
  "请求超时 (第" ++ toString attempt ++ "次尝试): " ++ m

/-- `f"API速率限制 (第{attempt}次尝试): {e}"`. -/
def rateLimitMsg (attempt : Nat) (m : String) : String :=
  "API速率限制 (第" ++ toString attempt ++ "次尝试): " ++ m

/-- `f"服务器错误 (第{attempt}次尝试): {e}"`. -/
def serverErrorMsg (attempt : Nat) (m : String) : String :=
  "服务器错误 (第" ++ toString attempt ++ "次尝试): " ++ m

/-- `f"网络错误 (第{attempt}次尝试): {e}"`. -/
def networkErrorMsg (attempt : Nat) (m : String) : String :=
  "网络错误 (第" ++ toString attempt ++ "次尝试): " ++ m

/-- `f"未知错误 (第{attempt}次尝试): {e}"`. -/
def unknownErrorMsg (attempt : Nat) (m : String) : String :=
  "未知错误 (第" ++ toString attempt ++ "次尝试): " ++ m

/-- `f"API调用失败: {e}"` (non-retryable client error). -/
def clientErrorMsg (m : String) : String :=
  "API调用失败: " ++ m

/-- `f"API响应格式错误: {e}"` (unparseable response). -/
def badFormatMsg (m : String) : String :=
  "API响应格式错误: " ++ m

/-- `f"API调用失败，已重试{max_attempts}次: {last_error}"`. -/
def aggregateMsg (maxA : Nat) (le : Option String) : String :=
  "API调用失败，已重试" ++ toString maxA ++ "次: " ++
    (match le with | some s => s | none => "None")

/-- The retry loop of `call_api`, from a given attempt number with a
given number of attempts remaining, carrying `last_error`.  Returns the
result together with the number of request attempts actually performed.
-/
def callApiFrom (backend : Nat → ApiResponse) (maxA : Nat) :
    Nat → Nat → Option String → Except String String × Nat
  | _, 0, le => (Except.error (aggregateMsg maxA le), 0)
  | attempt, remaining + 1, _ =>
    match backend attempt with
    | ApiResponse.ok t => (Except.ok t, 1)
    | ApiResponse.badFormat m => (Except.error (badFormatMsg m), 1)
    | ApiResponse.timeout m =>
      let p := callApiFrom backend maxA (attempt + 1) remaining
        (some (timeoutMsg attempt m))
      (p.1, p.2 + 1)
    | ApiResponse.httpError s m =>
      if s = 429 then
        let p := callApiFrom backend maxA (attempt + 1) remaining
          (some (rateLimitMsg attempt m))
        (p.1, p.2 + 1)
      else if 500 ≤ s then
        let p := callApiFrom backend maxA (attempt + 1) remaining
          (some (serverErrorMsg attempt m))
        (p.1, p.2 + 1)
      else (Except.error (clientErrorMsg m), 1)
    | ApiResponse.networkError m =>
      let p := callApiFrom backend maxA (attempt + 1) remaining
        (some (networkErrorMsg attempt m))
      (p.1, p.2 + 1)
    | ApiResponse.otherError m =>
      let p := callApiFrom backend maxA (attempt + 1) remaining
        (some (unknownErrorMsg attempt m))
      (p.1, p.2 + 1)

/-- Embedding of `AIModelClient.call_api`: the backend oracle gives the
outcome of the request made on each attempt number; the result carries
the number of attempts performed.  (Retry sleeps and the progress notice
are side effects without influence on the result and are not modelled.)
-/
def call_api (backend : Nat → ApiResponse) (maxAttempts : Nat) :
    Except String String × Nat :=
  callApiFrom backend maxAttempts 1 maxAttempts none

/-! ## `TaskProgress` (progress_manager.py lines 11–88) -/

/-- An entry of `completed_segments` (the dict built at lines 372–378 of
`summarize.py`; `completed_at` is added by `add_completed_segment`). -/
structure SegmentData where
  index : Nat
  start_time : Option String
  original_length : Nat
  summary : String
  keywords : List String
  completed_at : Nat
deriving DecidableEq, Repr

/-- An entry of `failed_segments` (lines 80–84 of
`progress_manager.py`). -/
structure FailedData where
  index : Nat
  error : String
  failed_at : Nat
deriving DecidableEq, Repr

/-- The durable task state.  Timestamps are ticks of the logical clock.
-/
structure TaskProgress where
  task_id : String
  media_title : String
  model_key : String
  created_at : Nat
  updated_at : Nat
  total_segments : Nat
  completed_segments : List SegmentData
  failed_segments : List FailedData
  overall_summary : Option String
  topics : Option (List String)
  status : String
  error_info : Option String
deriving DecidableEq, Repr

/-- `TaskProgress.__init__` (lines 14–26). -/
def TaskProgress.create (task_id media_title model_key : String) (now : Nat) :
    TaskProgress :=
  ⟨task_id, media_title, model_key, now, now, 0, [], [], none, none,
   "initialized", none⟩

/-- `TaskProgress.is_segment_completed` (lines 66–68). -/
def TaskProgress.is_segment_completed (t : TaskProgress) (i : Nat) : Bool :=
  t.completed_segments.any (fun s => s.index == i)

/-- `TaskProgress.get_progress_percentage` (lines 60–64). -/
def TaskProgress.get_progress_percentage (t : TaskProgress) : ℚ :=
  if t.total_segments = 0 then 0
  else (t.completed_segments.length : ℚ) / (t.total_segments : ℚ) * 100

/-- `TaskProgress.add_completed_segment` (lines 70–76): stamps
`completed_at` with one `now()` tick, appends unless the index is
already completed, and refreshes `updated_at` with a second tick. -/
def TaskProgress.add_completed_segment (t : TaskProgress) (d : SegmentData)
    (now : Nat) : TaskProgress × Nat :=
  let d' := { d with completed_at := now }
  let t' :=
    if t.is_segment_completed d.index then t
    else { t with completed_segments := t.completed_segments ++ [d'] }
  ({ t' with updated_at := now + 1 }, now + 2)

/-- `TaskProgress.add_failed_segment` (lines 78–88). -/
def TaskProgress.add_failed_segment (t : TaskProgress) (i : Nat) (err : String)
    (now : Nat) : TaskProgress × Nat :=
  let f : FailedData := ⟨i, err, now⟩
  let t' :=
    if t.failed_segments.any (fun s => s.index == i) then t
    else { t with failed_segments := t.failed_segments ++ [f] }
  ({ t' with updated_at := now + 1 }, now + 2)

/-! ## `ProgressManager` persistence (lines 91–142) -/

/-- The progress directory: one serialized record per `task_id`. -/
structure PMStore where
  files : List (String × TaskProgress)
deriving Repr

/-- Overwrite-or-create the record keyed by `id`. -/
def pmSet : List (String × TaskProgress) → String → TaskProgress →
    List (String × TaskProgress)
  | [], id, t => [(id, t)]
  | (k, v) :: rest, id, t =>
    if k = id then (id, t) :: rest else (k, v) :: pmSet rest id t

/-- `ProgressManager.save_task` (lines 116–128): when `auto_save` is
off, nothing is written and `True` is returned; otherwise the record is
overwritten.  A failing write (the `except` clause, modelled by the
`writeOk` oracle) is reported by returning `False` — the method never
raises. -/
def save_task (auto_save : Bool) (writeOk : Bool) (store : PMStore)
    (t : TaskProgress) : PMStore × Bool :=
  if !auto_save then (store, true)
  else if writeOk then (⟨pmSet store.files t.task_id t⟩, true)
  else (store, false)

/-- `ProgressManager.load_task` (lines 130–142). -/
def load_task (store : PMStore) (id : String) : Option TaskProgress :=
  store.files.lookup id

/-- `ProgressManager.get_next_segments_to_process` (lines 206–220):
keep every segment whose index is not completed (failed indices are
thereby re-included). -/
def get_next_segments_to_process (t : TaskProgress) (segments : List Segment) :
    List Segment :=
  segments.filter (fun s => !(t.is_segment_completed s.index))

/-! ## `PodcastSummarizer.summarize_transcript` (lines 312–460)

The orchestrator is embedded from the start of its `try` block (line
332): the pre-`try` configuration checks raise before any phase runs and
never touch the task, and the claims under verification all concern the
phases.  Each call of `progress_manager.save_task(task)` appends the
task snapshot to `saves`; each text-generation request appends an
`ApiCall` to `calls`. -/

/-- One text-generation request, with the data determining its prompt.
The segment index is carried on per-segment calls for attribution. -/
inductive ApiCall where
  | summarizeSeg (index : Nat) (content : String)
  | extractKeywords (index : Nat) (content : String)
  | overallSummary (summariesText : String)
  | analyzeTopics (contentSample : String)
deriving DecidableEq, Repr

/-- The data of one `progress_callback(fraction, message)` invocation
(the message string is a rendering of these fields). -/
inductive ProgressEvent where
  | segmenting
  | preparing (remaining : Nat)
  | summarizingSeg (progress : ℚ) (index : Nat) (total : Nat)
  | segDone (progress : ℚ) (index : Nat) (pct : ℚ)
  | interimDone (completed : Nat) (total : Nat) (failed : Nat)
  | generatingOverall
  | analyzingTopics
  | finished
deriving Repr

/-- The orchestrator's environment: generation oracle, optional
progress callback (whose `Except.error` models the callback raising),
the two `config['summarization']['summary']` flags, and the segmenter
thresholds. -/
structure OrchCfg where
  api : ApiCall → Except String String
  cb : Option (ProgressEvent → Except String Unit)
  include_keywords : Bool
  include_topics : Bool
  min_length : Nat
  max_length : Nat
  overlap_ratio : ℚ

/-- Invoke the progress callback if one was supplied. -/
def runCb (cb : Option (ProgressEvent → Except String Unit))
    (e : ProgressEvent) : Except String Unit :=
  match cb with
  | none => Except.ok ()
  | some f => f e

/-- Mutable context of one `summarize_transcript` run: current task,
log of persisted snapshots, log of generation calls, logical clock. -/
structure RunState where
  task : TaskProgress
  saves : List TaskProgress
  calls : List ApiCall
  time : Nat
deriving Repr

/-- `self.progress_manager.save_task(task)`. -/
def saveRun (r : RunState) : RunState :=
  { r with saves := r.saves ++ [r.task] }

/-- `[kw.strip() for kw in result.split(',') if kw.strip()]`
(line 533). -/
def parseKeywords (res : String) : List String :=
  ((splitOnChar ',' res.data).map (fun cs => (⟨trimChars cs⟩ : String))).filter
    (fun s => s ≠ "")

/-- `[t.strip() for t in result.split('\n') if t.strip()]` (line 575).
-/
def parseTopics (res : String) : List String :=
  ((splitOnChar '\n' res.data).map (fun cs => (⟨trimChars cs⟩ : String))).filter
    (fun s => s ≠ "")

/-- Newline join (Python `"\n".join`). -/
def joinPar : List String → String
  | [] => ""
  | [x] => x
  | x :: y :: rest => x ++ "\n" ++ joinPar (y :: rest)

/-- `"\n".join(f"{i+1}. {s['summary']}" ...)` (line 539). -/
def buildSummariesText (l : List SegmentData) : String :=
  joinPar (l.enum.map (fun p => toString (p.1 + 1) ++ ". " ++ p.2.summary))

/-- The result dict of `_create_partial_result` /
`_create_final_result`, with the metadata flattened.  `incomplete`
models the `is-partial` metadata flag. -/
structure SummaryResult where
  segments : List SegmentData
  overall_summary : String
  topics : List String
  total_segments : Nat
  completed_segments_count : Nat
  failed_segments_count : Nat
  original_length : Nat
  generated_at : Nat
  task_id : String
  progress_percentage : ℚ
  status : String
  incomplete : Bool
deriving Repr

/-- `_create_partial_result` (lines 462–480). -/
def mkInterimResult (t : TaskProgress) (text : String) : SummaryResult :=
  { segments := t.completed_segments
    overall_summary := t.overall_summary.getD "总体总结尚未完成，请继续任务以生成完整总结"
    topics := t.topics.getD []
    total_segments := t.total_segments
    completed_segments_count := t.completed_segments.length
    failed_segments_count := t.failed_segments.length
    original_length := text.length
    generated_at := t.updated_at
    task_id := t.task_id
    progress_percentage := t.get_progress_percentage
    status := t.status
    incomplete := true }

/-- `_create_final_result` (lines 482–500); only reached with
`overall_summary` set, so the default is never read. -/
def mkFinalResult (t : TaskProgress) (text : String) : SummaryResult :=
  { segments := t.completed_segments
    overall_summary := t.overall_summary.getD ""
    topics := t.topics.getD []
    total_segments := t.total_segments
    completed_segments_count := t.completed_segments.length
    failed_segments_count := t.failed_segments.length
    original_length := text.length
    generated_at := t.updated_at
    task_id := t.task_id
    progress_percentage := 100
    status := t.status
    incomplete := false }

/-- The success continuation of one loop iteration (lines 362–385):
optional keyword extraction (its failure is caught and yields `[]`),
`add_completed_segment`, immediate save, and the completion callback —
whose raising is caught by the iteration's `except`, recording the very
segment that just completed into `failed_segments`. -/
def segSuccessStep (cfg : OrchCfg) (total : Nat) (prog : ℚ) (seg : Segment)
    (summary : String) (r1 : RunState) : RunState :=
  let kr : RunState × List String :=
    if cfg.include_keywords then
      match cfg.api (ApiCall.extractKeywords seg.index seg.content) with
      | Except.ok res =>
        ({ r1 with calls := r1.calls ++
            [ApiCall.extractKeywords seg.index seg.content] }, parseKeywords res)
      | Except.error _ =>
        ({ r1 with calls := r1.calls ++
            [ApiCall.extractKeywords seg.index seg.content] }, [])
    else (r1, [])
  let d : SegmentData := ⟨seg.index, seg.start_time, seg.length, summary, kr.2, 0⟩
  let p := kr.1.task.add_completed_segment d kr.1.time
  let r3 := saveRun { kr.1 with task := p.1, time := p.2 }
  match runCb cfg.cb (ProgressEvent.segDone prog seg.index
      ((p.1.completed_segments.length : ℚ) / (total : ℚ) * 100)) with
  | Except.error e =>
    saveRun { r3 with task := (r3.task.add_failed_segment seg.index e r3.time).1,
                      time := (r3.task.add_failed_segment seg.index e r3.time).2 }
  | Except.ok _ => r3

/-- Phase 2, the per-segment loop (lines 354–394).  `total` is the
local `total_segments = len(segments)`; `cc` the completed count
captured before the loop; `i` the position in `remaining_segments`.
Every exception inside the loop body — a raising callback or a failed
generation call — is caught, recorded via `add_failed_segment`,
persisted, and the loop continues with the next segment. -/
def phase2Loop (cfg : OrchCfg) (total cc : Nat) :
    Nat → List Segment → RunState → RunState
  | _, [], r => r
  | i, seg :: rest, r =>
    match runCb cfg.cb (ProgressEvent.summarizingSeg
        (1 / 10 + (((cc : ℚ) + (i : ℚ)) / (total : ℚ)) * (7 / 10))
        seg.index total) with
    | Except.error e =>
      phase2Loop cfg total cc (i + 1) rest
        (saveRun { r with
          task := (r.task.add_failed_segment seg.index e r.time).1,
          time := (r.task.add_failed_segment seg.index e r.time).2 })
    | Except.ok _ =>
      match cfg.api (ApiCall.summarizeSeg seg.index seg.content) with
      | Except.error e =>
        phase2Loop cfg total cc (i + 1) rest
          (saveRun { r with
            calls := r.calls ++ [ApiCall.summarizeSeg seg.index seg.content],
            task := (r.task.add_failed_segment seg.index e r.time).1,
            time := (r.task.add_failed_segment seg.index e r.time).2 })
      | Except.ok summary =>
        phase2Loop cfg total cc (i + 1) rest
          (segSuccessStep cfg total
            (1 / 10 + (((cc : ℚ) + (i : ℚ)) / (total : ℚ)) * (7 / 10))
            seg summary
            { r with calls := r.calls ++
                [ApiCall.summarizeSeg seg.index seg.content] })

/-- Phase 3, the not-all-completed exit (lines 398–415): set the status
according to whether failures remain, report, persist, and return a
partial result. -/
def phase3interim (cfg : OrchCfg) (text : String) (total : Nat)
    (r : RunState) : Except String SummaryResult × RunState :=
  let failedCount := r.task.failed_segments.length
  let completedCount := r.task.completed_segments.length
  let t := { r.task with status :=
    if failedCount > 0 then "segments_in_progress" else "segments_completed" }
  let r1 := { r with task := t }
  match runCb cfg.cb (ProgressEvent.interimDone completedCount total failedCount) with
  | Except.error e => (Except.error e, r1)
  | Except.ok _ =>
    let r2 := saveRun r1
    (Except.ok (mkInterimResult r2.task text), r2)

/-- Phase 6 (lines 446–453): mark the task completed, persist, report,
return the final result.  A raising callback here escapes to the
top-level handler. -/
def phase6finish (cfg : OrchCfg) (text : String) (r : RunState) :
    Except String SummaryResult × RunState :=
  let r1 := saveRun { r with task := { r.task with status := "overall_completed" } }
  match runCb cfg.cb ProgressEvent.finished with
  | Except.error e => (Except.error e, r1)
  | Except.ok _ => (Except.ok (mkFinalResult r1.task text), r1)

/-- Phase 5, topic analysis (lines 432–444).  `_analyze_topics` catches
its own API failure and returns `[]`, so the surrounding `except` fires
only for a raising callback, which also results in `topics = []`. -/
def phase5topics (cfg : OrchCfg) (text : String) (r : RunState) :
    Except String SummaryResult × RunState :=
  if r.task.topics = none ∧ cfg.include_topics = true then
    match runCb cfg.cb ProgressEvent.analyzingTopics with
    | Except.error _ =>
      phase6finish cfg text (saveRun { r with task := { r.task with topics := some [] } })
    | Except.ok _ =>
      let call := ApiCall.analyzeTopics (strTake text 2000)
      let r1 := { r with calls := r.calls ++ [call] }
      let topics :=
        match cfg.api call with
        | Except.ok res => parseTopics res
        | Except.error _ => []
      phase6finish cfg text (saveRun { r1 with task := { r1.task with topics := some topics } })
  else phase6finish cfg text r

/-- Phase 4, the overall summary (lines 417–430): only issued while
`overall_summary` is unset; its internal `except` (raising callback or
failed call) downgrades to `segments_completed` and returns a partial
result. -/
def phase4overall (cfg : OrchCfg) (text : String) (r : RunState) :
    Except String SummaryResult × RunState :=
  match r.task.overall_summary with
  | some _ => phase5topics cfg text r
  | none =>
    match runCb cfg.cb ProgressEvent.generatingOverall with
    | Except.error _ =>
      let r1 := saveRun { r with task := { r.task with status := "segments_completed" } }
      (Except.ok (mkInterimResult r1.task text), r1)
    | Except.ok _ =>
      let call := ApiCall.overallSummary (buildSummariesText r.task.completed_segments)
      let r1 := { r with calls := r.calls ++ [call] }
      match cfg.api call with
      | Except.error _ =>
        let r2 := saveRun { r1 with task := { r1.task with status := "segments_completed" } }
        (Except.ok (mkInterimResult r2.task text), r2)
      | Except.ok s =>
        phase5topics cfg text
          (saveRun { r1 with task := { r1.task with overall_summary := some s } })

/-- Phases 2–6 of the orchestrator body, after segmentation-state
handling: the pre-loop progress report (line 351, whose raising escapes
to the top level), the per-segment loop, the completion gate (line
397), and the overall/topics/finalize phases. -/
def summarizeRest (cfg : OrchCfg) (text : String) (segments : List Segment)
    (r1 : RunState) : Except String SummaryResult × RunState :=
  match runCb cfg.cb (ProgressEvent.preparing
      (get_next_segments_to_process r1.task segments).length) with
  | Except.error e => (Except.error e, r1)
  | Except.ok _ =>
    if (phase2Loop cfg segments.length r1.task.completed_segments.length 0
        (get_next_segments_to_process r1.task segments) r1).task.completed_segments.length ≠
        segments.length then
      phase3interim cfg text segments.length
        (phase2Loop cfg segments.length r1.task.completed_segments.length 0
          (get_next_segments_to_process r1.task segments) r1)
    else
      phase4overall cfg text
        (phase2Loop cfg segments.length r1.task.completed_segments.length 0
          (get_next_segments_to_process r1.task segments) r1)

/-- The body of the orchestrator's `try` block (lines 332–453): phase 1
(segmentation and `total_segments` recording on first run;
re-segmentation on resumption) followed by `summarizeRest`.  An
`Except.error` outcome is an exception escaping a phase; the returned
`RunState` is the context at that point. -/
def summarizeBody (cfg : OrchCfg) (text : String) (task0 : TaskProgress)
    (time0 : Nat) : Except String SummaryResult × RunState :=
  match (if task0.total_segments = 0 then runCb cfg.cb ProgressEvent.segmenting
         else Except.ok ()) with
  | Except.error e => (Except.error e, ⟨task0, [], [], time0⟩)
  | Except.ok _ =>
    summarizeRest cfg text
      (segment_by_topic cfg.min_length cfg.max_length cfg.overlap_ratio text)
      (if task0.total_segments = 0 then
        saveRun ⟨{ task0 with
            total_segments := (segment_by_topic cfg.min_length cfg.max_length
              cfg.overlap_ratio text).length,
            status := "segments_in_progress" }, [], [], time0⟩
      else ⟨task0, [], [], time0⟩)

/-- `summarize_transcript` with its top-level `except` (lines 455–460):
record the message into `error_info`, set status `failed`, persist, and
re-raise. -/
def summarize_transcript (cfg : OrchCfg) (text : String)
    (task0 : TaskProgress) (time0 : Nat) :
    Except String SummaryResult × RunState :=
  match summarizeBody cfg text task0 time0 with
  | (Except.ok res, r) => (Except.ok res, r)
  | (Except.error e, r) =>
    let t' := { r.task with error_info := some e, status := "failed" }
    (Except.error e, { r with task := t', saves := r.saves ++ [t'] })

/-! ## Auxiliary definitions used by the verification statements -/

/-- The index of a per-segment summary call, if the call is one. -/
def sumSegIdx : ApiCall → Option Nat
  | ApiCall.summarizeSeg i _ => some i
  | _ => none

/-- The segment index of a per-segment generation call (summary or
keyword extraction), if the call is one. -/
def perSegIdx : ApiCall → Option Nat
  | ApiCall.summarizeSeg i _ => some i
  | ApiCall.extractKeywords i _ => some i
  | _ => none

/-- Is the call the overall-synthesis call? -/
def isOverallCall : ApiCall → Bool
  | ApiCall.overallSummary _ => true
  | _ => false

/-- Overlapping-chunk coverage: `SegsCover t cs rem segs` says that
starting from a buffer holding the paragraphs `cs` behind an opaque
overlap prelude `t`, processing the remaining paragraphs `rem` yields
exactly the segments `segs`, where each emitted segment's content is
`strip(prelude ++ "\n".join(chunk))` for its chunk of consecutive
paragraphs, consecutive chunks overlap in exactly the split paragraph
(it closes one chunk and reopens the next), and the final chunk extends
to the last paragraph. -/
inductive SegsCover : String → List String → List String → List Segment → Prop where
  | lastSeg : ∀ (t : String) (cs : List String) (p : String) (s : Segment),
      s.content = pyStrip (t ++ joinPar (cs ++ [p])) →
      SegsCover t cs [p] [s]
  | extend : ∀ (t : String) (cs : List String) (p : String)
      (rest : List String) (segs : List Segment),
      rest ≠ [] → SegsCover t (cs ++ [p]) rest segs →
      SegsCover t cs (p :: rest) segs
  | split : ∀ (t : String) (cs : List String) (p : String)
      (rest : List String) (s : Segment) (t' : String) (segs : List Segment),
      rest ≠ [] → s.content = pyStrip (t ++ joinPar (cs ++ [p])) →
      SegsCover t' [p] rest segs →
      SegsCover t cs (p :: rest) (s :: segs)

/-- Coverage of a whole paragraph list by a segmentation result. -/
def Covers (P : List String) (S : List Segment) : Prop :=
  (P = [] ∧ S = []) ∨ SegsCover "" [] P S

/-! ## Concrete fixtures for worked examples and witnesses -/

/-- The spec example's marker vocabulary, matched the way
`_detect_topic_change` matches its own vocabulary (substring of the
lowercased paragraph). -/
def exampleDetector (p : String) : Bool :=
  ["next", "finally"].any (fun ind => strContains (pyLower p) ind)

/-- The spec example's input text. -/
def exampleText : String :=
  "Intro text.\nNext, topic B starts here.\nFinally, topic C wraps up."

/-- A generation oracle that always succeeds. -/
def apiOk : ApiCall → Except String String := fun _ => Except.ok "ok"

/-- A progress callback that always raises. -/
def cbBoom : Option (ProgressEvent → Except String Unit) :=
  some (fun _ => Except.error "boom")

/-- A task resumed mid-run: 4 segments in total, indices 1 and 3
completed, index 2 failed. -/
def taskC1 : TaskProgress :=
  ⟨"task-c1", "demo", "model", 0, 0, 4,
   [⟨1, none, 2, "s1", [], 1⟩, ⟨3, none, 2, "s3", [], 2⟩],
   [⟨2, "err", 3⟩], none, none, "segments_in_progress", none⟩

/-- Configuration used for the resumption witness (no callback). -/
def cfgC1 : OrchCfg := ⟨apiOk, none, true, true, 1, 3, mkRat 0 1⟩

/-- A 5-paragraph text that segments into exactly 4 segments under
`cfgC1`'s thresholds. -/
def textC1 : String := "aa\nbb\ncc\ndd\nee"

/-- A freshly created task (created at tick 5). -/
def taskFresh : TaskProgress := TaskProgress.create "task-f" "demo" "model" 5

/-- Configuration with an always-raising callback. -/
def cfgC8 : OrchCfg := ⟨apiOk, cbBoom, false, false, 1, 1000, mkRat 1 10⟩

/-- Configuration with no callback and an always-succeeding oracle. -/
def cfgC9 : OrchCfg := ⟨apiOk, none, false, false, 1, 1000, mkRat 1 10⟩

/-- A one-paragraph transcript. -/
def textSmall : String := "hi"

/-! # Theorems -/

/-! ## C10: `save_task` under `auto_save = false` -/

/-- C10: when `auto_save` is false, `save_task` writes nothing yet
returns `True`, so a subsequent `load_task` returns whatever was stored
before (the last state written while auto-save was enabled, or
not-found); and `save_task` reports a write failure only by returning
`False` (it never raises — in the embedding it returns a Boolean
instead of an exception). -/
theorem save_task_auto_save_disabled (store : PMStore) (t : TaskProgress)
    (id : String) (writeOk : Bool) :
    save_task false writeOk store t = (store, true) ∧
    load_task (save_task false writeOk store t).1 id = load_task store id ∧
    (save_task true false store t).2 = false ∧
    (save_task true true store t).2 = true :=
  ⟨rfl, rfl, rfl, rfl⟩

/-! ## C4: completed/failed exclusivity -/

/-- C4 counterexample: a segment that first fails and later completes
is recorded in `completed_segments` *and still* in `failed_segments` —
`add_completed_segment` never removes the failed entry, so an index can
be in both sets at once, contrary to the claim. -/
theorem completed_and_failed_overlap_cex :
    ((((TaskProgress.create "t" "demo" "m" 0).add_failed_segment 1 "api error" 10).1.add_completed_segment
        ⟨1, none, 5, "sum", [], 0⟩ 20).1.is_segment_completed 1 = true) ∧
    (((((TaskProgress.create "t" "demo" "m" 0).add_failed_segment 1 "api error" 10).1.add_completed_segment
        ⟨1, none, 5, "sum", [], 0⟩ 20).1.failed_segments.map FailedData.index).contains 1 = true) := by
  decide

/-- C4 amended: a later success for an index does *not* remove it from
`failed_segments` (the entry is retained verbatim), but completion wins
for processing: after `add_completed_segment` the index tests as
completed and `get_next_segments_to_process` never selects a segment
with that index again. -/
theorem add_completed_segment_keeps_failed_entry (t : TaskProgress)
    (d : SegmentData) (now : Nat) (segs : List Segment) :
    ((t.add_completed_segment d now).1.is_segment_completed d.index = true) ∧
    ((t.add_completed_segment d now).1.failed_segments = t.failed_segments) ∧
    ((get_next_segments_to_process (t.add_completed_segment d now).1 segs).all
      (fun s => s.index != d.index) = true) := by
  have hcs : ¬t.is_segment_completed d.index = true →
      (t.add_completed_segment d now).1.completed_segments =
        t.completed_segments ++ [{ d with completed_at := now }] := by
    intro h
    simp [TaskProgress.add_completed_segment, h]
  have hcs2 : t.is_segment_completed d.index = true →
      (t.add_completed_segment d now).1.completed_segments = t.completed_segments := by
    intro h
    simp [TaskProgress.add_completed_segment, h]
  have hcomp : (t.add_completed_segment d now).1.is_segment_completed d.index = true := by
    by_cases h : t.is_segment_completed d.index = true
    · simp only [TaskProgress.is_segment_completed] at h ⊢
      rw [hcs2 h]
      exact h
    · simp only [TaskProgress.is_segment_completed]
      rw [hcs h, List.any_append]
      simp
  have hfail : (t.add_completed_segment d now).1.failed_segments = t.failed_segments := by
    by_cases h : t.is_segment_completed d.index = true <;>
      simp [TaskProgress.add_completed_segment, h]
  refine ⟨hcomp, hfail, ?_⟩
  rw [List.all_eq_true]
  intro s hs
  simp only [get_next_segments_to_process] at hs
  rw [List.mem_filter] at hs
  have h2 := hs.2
  rw [Bool.eq_iff_iff]
  simp only [bne_iff_ne, ne_eq, iff_true]
  intro hidx
  rw [hidx, hcomp] at h2
  simp at h2

/-! ## C9: `updated_at` refresh discipline -/

/-- C9 counterexample: in a concrete full run of `summarize_transcript`
on a fresh task, the first persisted snapshot has mutated
`total_segments` (0 → 1) and `status` (initialized → in-progress), yet
its `updated_at` still equals the task's original creation tick 5 even
though the clock stands at 100 — the segmentation/status/finalization
mutations never refresh `updated_at`, contrary to the claim. -/
theorem updated_at_not_refreshed_cex :
    ((summarize_transcript cfgC9 textSmall taskFresh 100).2.saves.head?.map
      TaskProgress.updated_at = some 5) ∧
    ((summarize_transcript cfgC9 textSmall taskFresh 100).2.saves.head?.map
      TaskProgress.total_segments = some 1) ∧
    ((summarize_transcript cfgC9 textSmall taskFresh 100).2.saves.head?.map
      TaskProgress.status = some "segments_in_progress") ∧
    taskFresh.updated_at = 5 ∧ taskFresh.total_segments = 0 ∧
    taskFresh.status = "initialized" := by
  decide

/-- C9 amended: `updated_at` is refreshed exactly by the two
segment-recording mutators — `add_completed_segment` and
`add_failed_segment` stamp it with a fresh clock tick — while the other
field mutations of `summarize_transcript` (total_segments, status,
overall_summary, topics, error_info) are persisted without touching it.
-/
theorem updated_at_refreshed_on_segment_mutations (t : TaskProgress)
    (d : SegmentData) (i now : Nat) (err : String) :
    (t.add_completed_segment d now).1.updated_at = now + 1 ∧
    (t.add_failed_segment i err now).1.updated_at = now + 1 :=
  ⟨rfl, rfl⟩

/-! ## C3: retry bound of `call_api` -/

/-- C3: with `max_attempts = 3` against a backend whose every request
times out, `call_api` performs exactly 3 attempts, never succeeds, and
raises the aggregate failure carrying the most recent (third) timeout
error. -/
theorem call_api_retry_bound (backend : Nat → ApiResponse) (m : Nat → String)
    (hb : ∀ n, backend n = ApiResponse.timeout (m n)) :
    call_api backend 3 =
      (Except.error (aggregateMsg 3 (some (timeoutMsg 3 (m 3)))), 3) := by
  unfold call_api
  rw [show (3 : Nat) = 2 + 1 from rfl]
  simp [callApiFrom, hb]

/-- Witness for C3 at a concrete always-timing-out backend. -/
theorem call_api_retry_bound_witness :
    call_api (fun _ => ApiResponse.timeout "t") 3 =
      (Except.error (aggregateMsg 3 (some (timeoutMsg 3 "t"))), 3) :=
  call_api_retry_bound (fun _ => ApiResponse.timeout "t") (fun _ => "t")
    (fun _ => rfl)

/-! ## C7: determinism of segmentation -/

/-- C7: `segment_by_topic` is a pure function of
`(min_length, max_length, overlap_ratio, text)`: two runs on identical
inputs yield identical segment lists — the same boundaries, contents,
counts, start times and indices. -/
theorem segment_by_topic_deterministic (minL maxL : Nat) (ratio : ℚ)
    (text : String) (s1 s2 : List Segment)
    (h1 : s1 = segment_by_topic minL maxL ratio text)
    (h2 : s2 = segment_by_topic minL maxL ratio text) :
    s1 = s2 ∧ s1.map Segment.content = s2.map Segment.content ∧
    s1.map Segment.index = s2.map Segment.index ∧
    s1.map Segment.start_time = s2.map Segment.start_time ∧
    s1.length = s2.length := by
  subst h1; subst h2
  exact ⟨rfl, rfl, rfl, rfl, rfl⟩

/-- Witness for C7 at a concrete input. -/
theorem segment_by_topic_deterministic_witness :
    (segment_by_topic 1 10 (1 / 10) "你好\n世界" =
      segment_by_topic 1 10 (1 / 10) "你好\n世界") ∧
    ((segment_by_topic 1 10 (1 / 10) "你好\n世界").map Segment.content =
      (segment_by_topic 1 10 (1 / 10) "你好\n世界").map Segment.content) ∧
    ((segment_by_topic 1 10 (1 / 10) "你好\n世界").map Segment.index =
      (segment_by_topic 1 10 (1 / 10) "你好\n世界").map Segment.index) ∧
    ((segment_by_topic 1 10 (1 / 10) "你好\n世界").map Segment.start_time =
      (segment_by_topic 1 10 (1 / 10) "你好\n世界").map Segment.start_time) ∧
    ((segment_by_topic 1 10 (1 / 10) "你好\n世界").length =
      (segment_by_topic 1 10 (1 / 10) "你好\n世界").length) :=
  segment_by_topic_deterministic 1 10 (1 / 10) "你好\n世界" _ _ rfl rfl

/-! ## C6: the spec's worked marker example -/

/-- C6 counterexample: on the spec's example input with markers
`Next` / `Finally` firing as topic changes, `min_length = 1` and
`max_length = 1000`, segmentation yields 2 segments, not the claimed 3:
the algorithm appends the marker paragraph to the *closing* segment
before the split (and repeats it after the overlap tail), and the final
marker paragraph is absorbed into the last segment instead of opening a
new one. -/
theorem marker_example_not_three_segments_cex :
    (segmentByTopicWith exampleDetector 1 1000 (mkRat 1 10) exampleText).length = 2 ∧
    (segmentByTopicWith exampleDetector 1 1000 (mkRat 1 10) exampleText).length ≠ 3 := by
  decide

/-- C6 amended: the example yields exactly 2 segments indexed 1..2.
The marker paragraph "Next, …" *ends* segment 1 and is repeated after
the 3-character overlap tail "re." at the start of segment 2; the final
marker paragraph "Finally, …" joins segment 2 rather than starting a
third segment. -/
theorem marker_example_two_segments :
    segmentByTopicWith exampleDetector 1 1000 (mkRat 1 10) exampleText =
      [⟨"Intro text.\nNext, topic B starts here.", none, 38, 1⟩,
       ⟨"re.\nNext, topic B starts here.\nFinally, topic C wraps up.", none, 57, 2⟩] := by
  decide

/-! ## C5: coverage of the original paragraphs -/

/-- C5 counterexample: with `min_length = 1`, `max_length = 10`,
`overlap_ratio = 1/10` and input `"aaaaaa\nbbbbbb\ncc"`, the algorithm
produces segments `"aaaaaa\nbbbbbb"` and `"b\nbbbbbb\ncc"`.  The overlap
tail prepended to the second segment is `"b"` (the last
`int(13 * 0.1) = 1` characters of the just-closed segment); after
discounting it, the concatenated contents yield the paragraph sequence
`[aaaaaa, bbbbbb, bbbbbb, cc]` — the split paragraph `bbbbbb` is
duplicated, so the original sequence is not reproduced. -/
theorem segment_coverage_duplication_cex :
    ((segment_by_topic 1 10 (mkRat 1 10) "aaaaaa\nbbbbbb\ncc").map Segment.content =
      ["aaaaaa\nbbbbbb", "b\nbbbbbb\ncc"]) ∧
    (pyTailSlice "aaaaaa\nbbbbbb"
      (pyIntMul ("aaaaaa\nbbbbbb" : String).length (mkRat 1 10)) = "b") ∧
    (pyParagraphs ("aaaaaa\nbbbbbb" ++ strDrop "b\nbbbbbb\ncc" 1) ≠
      pyParagraphs "aaaaaa\nbbbbbb\ncc") ∧
    (pyParagraphs ("aaaaaa\nbbbbbb" ++ strDrop "b\nbbbbbb\ncc" 1) =
      ["aaaaaa", "bbbbbb", "bbbbbb", "cc"]) := by
  decide

/-! ## String and `joinPar` helper lemmas -/

theorem strAppend_assoc (a b c : String) : a ++ b ++ c = a ++ (b ++ c) := by
  cases a with | mk da =>
  cases b with | mk db =>
  cases c with | mk dc =>
  show String.mk (da ++ db ++ dc) = String.mk (da ++ (db ++ dc))
  rw [List.append_assoc]

theorem strEmpty_append (s : String) : "" ++ s = s := by
  cases s with | mk d =>
  rfl

theorem strLength_append (a b : String) : (a ++ b).length = a.length + b.length := by
  cases a with | mk da =>
  cases b with | mk db =>
  show (da ++ db).length = da.length + db.length
  rw [List.length_append]

theorem strAppend_nl_ne_empty (a b : String) : a ++ "\n" ++ b ≠ "" := by
  intro h
  have hlen := congrArg String.length h
  rw [strLength_append, strLength_append] at hlen
  have h1 : ("\n" : String).length = 1 := rfl
  have h0 : ("" : String).length = 0 := rfl
  rw [h1, h0] at hlen
  omega

theorem joinPar_concat (cs : List String) (p : String) (h : cs ≠ []) :
    joinPar (cs ++ [p]) = joinPar cs ++ "\n" ++ p := by
  induction cs with
  | nil => cases h rfl
  | cons x rest ih =>
    cases rest with
    | nil => rfl
    | cons y rest2 =>
      show x ++ "\n" ++ joinPar ((y :: rest2) ++ [p]) =
        x ++ "\n" ++ joinPar (y :: rest2) ++ "\n" ++ p
      rw [ih (by simp)]
      simp [strAppend_assoc]

theorem SegsCover.ne_nil {t : String} {cs rem : List String}
    {segs : List Segment} (h : SegsCover t cs rem segs) : segs ≠ [] := by
  induction h with
  | lastSeg => simp
  | extend _ _ _ _ _ _ _ ih => exact ih
  | split => simp

/-! ## Branch equations of `segLoop` -/

theorem segLoop_nil (det : String → Bool) (minL maxL : Nat) (ratio : ℚ)
    (acc : SegAcc) : segLoop det minL maxL ratio [] acc = acc := rfl

theorem segLoop_else (det : String → Bool) (minL maxL : Nat) (ratio : ℚ)
    (p : String) (rest : List String) (acc : SegAcc)
    (h : ¬(shouldSplitCond det minL maxL p rest acc ∧ acc.cur ≠ "")) :
    segLoop det minL maxL ratio (p :: rest) acc =
      segLoop det minL maxL ratio rest
        ⟨acc.segments, if acc.cur = "" then p else acc.cur ++ "\n" ++ p,
         (if acc.cur = "" then p else acc.cur ++ "\n" ++ p).length,
         segStTime p acc⟩ := by
  rw [segLoop]
  simp only [if_neg h]

theorem segLoop_split (det : String → Bool) (minL maxL : Nat) (ratio : ℚ)
    (p : String) (rest : List String) (acc : SegAcc)
    (hsplit : shouldSplitCond det minL maxL p rest acc) (hne : acc.cur ≠ "")
    (hrest : rest ≠ []) :
    segLoop det minL maxL ratio (p :: rest) acc =
      segLoop det minL maxL ratio rest
        ⟨acc.segments ++
           [⟨pyStrip (acc.cur ++ "\n" ++ p), segStTime p acc,
             (acc.cur ++ "\n" ++ p).length, acc.segments.length + 1⟩],
         pyTailSlice (acc.cur ++ "\n" ++ p)
             (pyIntMul (acc.cur ++ "\n" ++ p).length ratio) ++ "\n" ++ p,
         (pyTailSlice (acc.cur ++ "\n" ++ p)
             (pyIntMul (acc.cur ++ "\n" ++ p).length ratio) ++ "\n" ++ p).length,
         none⟩ := by
  rw [segLoop]
  simp only [if_pos (And.intro hsplit hne), if_neg hrest]

theorem segLoop_last (det : String → Bool) (minL maxL : Nat) (ratio : ℚ)
    (p : String) (acc : SegAcc) (hne : acc.cur ≠ "") :
    segLoop det minL maxL ratio [p] acc =
      ⟨acc.segments ++
         [⟨pyStrip (acc.cur ++ "\n" ++ p), segStTime p acc,
           (acc.cur ++ "\n" ++ p).length, acc.segments.length + 1⟩],
       acc.cur ++ "\n" ++ p, acc.curLen, segStTime p acc⟩ := by
  rw [segLoop]
  rw [if_pos (And.intro (Or.inr (Or.inr rfl)) hne)]
  simp
  rw [segLoop_nil]

/-! ## The coverage invariant of the segmentation loop -/

theorem segLoop_covers (det : String → Bool) (minL maxL : Nat) (ratio : ℚ) :
    ∀ (rem : List String) (acc : SegAcc) (t : String) (cs : List String),
      rem ≠ [] → cs ≠ [] → acc.cur = t ++ joinPar cs → acc.cur ≠ "" →
      ∃ newsegs, (segLoop det minL maxL ratio rem acc).segments =
          acc.segments ++ newsegs ∧ SegsCover t cs rem newsegs := by
  intro rem
  induction rem with
  | nil => intro acc t cs hrem; exact absurd rfl hrem
  | cons p rest ih =>
    intro acc t cs _ hcs hcur hne
    have hcontent : pyStrip (acc.cur ++ "\n" ++ p) =
        pyStrip (t ++ joinPar (cs ++ [p])) := by
      rw [joinPar_concat cs p hcs, hcur]
      simp [strAppend_assoc]
    by_cases hlast : rest = []
    · subst hlast
      rw [segLoop_last det minL maxL ratio p acc hne]
      refine ⟨[⟨pyStrip (acc.cur ++ "\n" ++ p), segStTime p acc,
        (acc.cur ++ "\n" ++ p).length, acc.segments.length + 1⟩], rfl, ?_⟩
      exact SegsCover.lastSeg t cs p _ hcontent
    · by_cases hsplit : shouldSplitCond det minL maxL p rest acc
      · rw [segLoop_split det minL maxL ratio p rest acc hsplit hne hlast]
        obtain ⟨ns, hseg, hcov⟩ := ih
          ⟨acc.segments ++
             [⟨pyStrip (acc.cur ++ "\n" ++ p), segStTime p acc,
               (acc.cur ++ "\n" ++ p).length, acc.segments.length + 1⟩],
           pyTailSlice (acc.cur ++ "\n" ++ p)
               (pyIntMul (acc.cur ++ "\n" ++ p).length ratio) ++ "\n" ++ p,
           (pyTailSlice (acc.cur ++ "\n" ++ p)
               (pyIntMul (acc.cur ++ "\n" ++ p).length ratio) ++ "\n" ++ p).length,
           none⟩
          (pyTailSlice (acc.cur ++ "\n" ++ p)
              (pyIntMul (acc.cur ++ "\n" ++ p).length ratio) ++ "\n")
          [p] hlast (by simp) (by simp [strAppend_assoc]; rfl)
          (strAppend_nl_ne_empty _ _)
        refine ⟨⟨pyStrip (acc.cur ++ "\n" ++ p), segStTime p acc,
          (acc.cur ++ "\n" ++ p).length, acc.segments.length + 1⟩ :: ns, ?_, ?_⟩
        · rw [hseg]
          simp
        · exact SegsCover.split t cs p rest _ _ ns hlast hcontent hcov
      · have hno : ¬(shouldSplitCond det minL maxL p rest acc ∧ acc.cur ≠ "") := by
          intro hc
          exact hsplit hc.1
        rw [segLoop_else det minL maxL ratio p rest acc hno, if_neg hne]
        obtain ⟨ns, hseg, hcov⟩ := ih
          ⟨acc.segments, acc.cur ++ "\n" ++ p,
           (acc.cur ++ "\n" ++ p).length, segStTime p acc⟩
          t (cs ++ [p]) hlast (by simp)
          (by
            show acc.cur ++ "\n" ++ p = t ++ joinPar (cs ++ [p])
            rw [joinPar_concat cs p hcs, hcur]
            simp [strAppend_assoc])
          (strAppend_nl_ne_empty _ _)
        exact ⟨ns, hseg, SegsCover.extend t cs p rest ns hlast hcov⟩

theorem pyParagraphs_ne_empty (text : String) :
    ∀ q ∈ pyParagraphs text, q ≠ "" := by
  intro q hq
  unfold pyParagraphs at hq
  rw [List.mem_filter] at hq
  exact of_decide_eq_true hq.2

theorem segmentByTopicWith_covers (det : String → Bool) (minL maxL : Nat)
    (ratio : ℚ) (text : String) :
    Covers (pyParagraphs text) (segmentByTopicWith det minL maxL ratio text) := by
  unfold segmentByTopicWith
  cases hps : pyParagraphs text with
  | nil =>
    simp only [hps, segLoop_nil]
    rw [if_neg (by simp)]
    exact Or.inl ⟨rfl, rfl⟩
  | cons p rest =>
    have hp : p ≠ "" := by
      apply pyParagraphs_ne_empty text
      rw [hps]
      exact List.mem_cons_self p rest
    simp only [hps]
    have hno : ¬(shouldSplitCond det minL maxL p rest ⟨[], "", 0, none⟩ ∧
        ("" : String) ≠ "") := by simp
    rw [segLoop_else det minL maxL ratio p rest ⟨[], "", 0, none⟩ hno]
    simp only [eq_self_iff_true, if_true]
    cases hrest : rest with
    | nil =>
      rw [segLoop_nil]
      rw [if_pos ⟨hp, rfl⟩]
      refine Or.inr ?_
      apply SegsCover.lastSeg "" [] p
      show pyStrip p = pyStrip ("" ++ joinPar ([] ++ [p]))
      rw [show ([] : List String) ++ [p] = [p] from rfl]
      rw [show joinPar [p] = p from rfl]
      rw [strEmpty_append]
    | cons q rest2 =>
      obtain ⟨ns, hseg, hcov⟩ := segLoop_covers det minL maxL ratio
        (q :: rest2) ⟨[], p, p.length, segStTime p ⟨[], "", 0, none⟩⟩ "" [p]
        (by simp) (by simp) (strEmpty_append p).symm hp
      rw [hseg]
      rw [if_neg ?hcond]
      case hcond =>
        intro hc
        have := hc.2
        rw [List.nil_append] at this
        exact hcov.ne_nil this
      rw [List.nil_append]
      refine Or.inr (SegsCover.extend "" [] p (q :: rest2) ns (by simp) ?_)
      rw [show ([] : List String) ++ [p] = [p] from rfl]
      exact hcov

/-- C5 amended: the claimed lossless coverage holds only up to the
duplicated split paragraphs.  For every input and configuration the
segment contents cover the non-blank paragraph sequence exactly, in
order and without loss, in overlapping chunks: the first segment is
`strip` of the newline-join of an initial run of paragraphs, every
later segment is `strip(prelude ++ join(chunk))` where the prelude is
the overlap tail (plus its joining newline) and the chunk *begins with
the same paragraph that closed the previous chunk* (the split paragraph
is emitted twice), and the last chunk ends at the last paragraph. -/
theorem segment_coverage_with_boundary_dup (minL maxL : Nat) (ratio : ℚ)
    (text : String) :
    Covers (pyParagraphs text) (segment_by_topic minL maxL ratio text) :=
  segmentByTopicWith_covers detect_topic_change minL maxL ratio text

/-! ## Segment indices are `1..n` -/

theorem segLoop_indices (det : String → Bool) (minL maxL : Nat) (ratio : ℚ) :
    ∀ (rem : List String) (acc : SegAcc),
      acc.segments.map Segment.index =
        (List.range acc.segments.length).map (· + 1) →
      (segLoop det minL maxL ratio rem acc).segments.map Segment.index =
        (List.range (segLoop det minL maxL ratio rem acc).segments.length).map
          (· + 1) := by
  intro rem
  induction rem with
  | nil =>
    intro acc h
    rw [segLoop_nil]
    exact h
  | cons p rest ih =>
    intro acc h
    by_cases hcond : shouldSplitCond det minL maxL p rest acc ∧ acc.cur ≠ ""
    · by_cases hlast : rest = []
      · subst hlast
        rw [segLoop_last det minL maxL ratio p acc hcond.2]
        show (acc.segments ++ [_]).map Segment.index =
          (List.range (acc.segments ++ [_]).length).map (· + 1)
        rw [List.map_append, List.length_append, h]
        simp [List.range_succ]
      · rw [segLoop_split det minL maxL ratio p rest acc hcond.1 hcond.2 hlast]
        apply ih
        show (acc.segments ++ [_]).map Segment.index =
          (List.range (acc.segments ++ [_]).length).map (· + 1)
        rw [List.map_append, List.length_append, h]
        simp [List.range_succ]
    · rw [segLoop_else det minL maxL ratio p rest acc hcond]
      apply ih
      exact h

theorem segmentByTopicWith_indices (det : String → Bool) (minL maxL : Nat)
    (ratio : ℚ) (text : String) :
    (segmentByTopicWith det minL maxL ratio text).map Segment.index =
      (List.range (segmentByTopicWith det minL maxL ratio text).length).map
        (· + 1) := by
  have h0 : (⟨[], "", 0, none⟩ : SegAcc).segments.map Segment.index =
      (List.range (⟨[], "", 0, none⟩ : SegAcc).segments.length).map (· + 1) := rfl
  have h := segLoop_indices det minL maxL ratio (pyParagraphs text)
    ⟨[], "", 0, none⟩ h0
  simp only [segmentByTopicWith]
  by_cases hc : (segLoop det minL maxL ratio (pyParagraphs text)
      ⟨[], "", 0, none⟩).cur ≠ "" ∧
      (segLoop det minL maxL ratio (pyParagraphs text)
        ⟨[], "", 0, none⟩).segments = []
  · rw [if_pos hc]
    rfl
  · rw [if_neg hc]
    exact h

theorem segment_by_topic_indices (minL maxL : Nat) (ratio : ℚ) (text : String) :
    (segment_by_topic minL maxL ratio text).map Segment.index =
      (List.range (segment_by_topic minL maxL ratio text).length).map (· + 1) :=
  segmentByTopicWith_indices detect_topic_change minL maxL ratio text

/-! ## Small facts about the task mutators and call classifiers -/

theorem add_failed_segment_preserves (t : TaskProgress) (i : Nat) (e : String)
    (now : Nat) :
    (t.add_failed_segment i e now).1.overall_summary = t.overall_summary ∧
    (t.add_failed_segment i e now).1.topics = t.topics ∧
    (t.add_failed_segment i e now).1.completed_segments = t.completed_segments := by
  simp only [TaskProgress.add_failed_segment]
  split <;> exact ⟨rfl, rfl, rfl⟩

theorem add_completed_segment_preserves (t : TaskProgress) (d : SegmentData)
    (now : Nat) :
    (t.add_completed_segment d now).1.overall_summary = t.overall_summary ∧
    (t.add_completed_segment d now).1.topics = t.topics := by
  simp only [TaskProgress.add_completed_segment]
  split <;> exact ⟨rfl, rfl⟩

theorem perSeg_not_overall (c : ApiCall) (h : (perSegIdx c).isSome = true) :
    isOverallCall c = false := by
  cases c <;> simp_all [perSegIdx, isOverallCall]

/-! ## Properties of the orchestrator phases -/

theorem phase6finish_props (cfg : OrchCfg) (text : String) (r : RunState) :
    (phase6finish cfg text r).2.calls = r.calls ∧
    (phase6finish cfg text r).2.task.overall_summary = r.task.overall_summary := by
  unfold phase6finish
  cases h : runCb cfg.cb ProgressEvent.finished <;> simp [h, saveRun]

theorem phase5topics_props (cfg : OrchCfg) (text : String) (r : RunState) :
    ∃ ext, (phase5topics cfg text r).2.calls = r.calls ++ ext ∧
      (∀ c ∈ ext, perSegIdx c = none ∧ isOverallCall c = false) ∧
      (phase5topics cfg text r).2.task.overall_summary =
        r.task.overall_summary := by
  unfold phase5topics
  by_cases hc : r.task.topics = none ∧ cfg.include_topics = true
  · rw [if_pos hc]
    cases h : runCb cfg.cb ProgressEvent.analyzingTopics with
    | error e =>
      have h6 := phase6finish_props cfg text
        (saveRun { r with task := { r.task with topics := some [] } })
      exact ⟨[], by simpa [saveRun] using h6.1, by simp,
        by simpa [saveRun] using h6.2⟩
    | ok u =>
      have h6 := phase6finish_props cfg text
        (saveRun { (⟨r.task, r.saves, r.calls ++
          [ApiCall.analyzeTopics (strTake text 2000)], r.time⟩ : RunState) with
          task := { r.task with topics := some (match cfg.api
            (ApiCall.analyzeTopics (strTake text 2000)) with
            | Except.ok res => parseTopics res
            | Except.error _ => []) } })
      refine ⟨[ApiCall.analyzeTopics (strTake text 2000)], ?_, ?_, ?_⟩
      · simpa [saveRun] using h6.1
      · simp [perSegIdx, isOverallCall]
      · simpa [saveRun] using h6.2
  · rw [if_neg hc]
    have h6 := phase6finish_props cfg text r
    exact ⟨[], by simpa using h6.1, by simp, h6.2⟩

theorem phase3interim_props (cfg : OrchCfg) (text : String) (total : Nat)
    (r : RunState) :
    (phase3interim cfg text total r).2.calls = r.calls ∧
    (phase3interim cfg text total r).2.task.overall_summary =
      r.task.overall_summary := by
  unfold phase3interim
  cases h : runCb cfg.cb (ProgressEvent.interimDone r.task.completed_segments.length
    total r.task.failed_segments.length) <;> simp [h, saveRun]

theorem phase4overall_eq_some (cfg : OrchCfg) (text : String) (r : RunState)
    (s0 : String) (hov : r.task.overall_summary = some s0) :
    phase4overall cfg text r = phase5topics cfg text r := by
  unfold phase4overall
  rw [hov]

theorem phase4overall_eq_cberr (cfg : OrchCfg) (text : String) (r : RunState)
    (e : String) (hov : r.task.overall_summary = none)
    (hcb : runCb cfg.cb ProgressEvent.generatingOverall = Except.error e) :
    phase4overall cfg text r =
      (Except.ok (mkInterimResult (saveRun { r with task :=
          { r.task with status := "segments_completed" } }).task text),
       saveRun { r with task :=
          { r.task with status := "segments_completed" } }) := by
  unfold phase4overall
  rw [hov, hcb]

theorem phase4overall_eq_apierr (cfg : OrchCfg) (text : String) (r : RunState)
    (e : String) (hov : r.task.overall_summary = none)
    (hcb : runCb cfg.cb ProgressEvent.generatingOverall = Except.ok ())
    (hapi : cfg.api (ApiCall.overallSummary
        (buildSummariesText r.task.completed_segments)) = Except.error e) :
    phase4overall cfg text r =
      (Except.ok (mkInterimResult (saveRun { r with
          calls := r.calls ++ [ApiCall.overallSummary
            (buildSummariesText r.task.completed_segments)],
          task := { r.task with status := "segments_completed" } }).task text),
       saveRun { r with
          calls := r.calls ++ [ApiCall.overallSummary
            (buildSummariesText r.task.completed_segments)],
          task := { r.task with status := "segments_completed" } }) := by
  unfold phase4overall
  rw [hov, hcb]
  simp only [hapi]

theorem phase4overall_eq_apiok (cfg : OrchCfg) (text : String) (r : RunState)
    (s1 : String) (hov : r.task.overall_summary = none)
    (hcb : runCb cfg.cb ProgressEvent.generatingOverall = Except.ok ())
    (hapi : cfg.api (ApiCall.overallSummary
        (buildSummariesText r.task.completed_segments)) = Except.ok s1) :
    phase4overall cfg text r = phase5topics cfg text
      (saveRun { r with
        calls := r.calls ++ [ApiCall.overallSummary
          (buildSummariesText r.task.completed_segments)],
        task := { r.task with overall_summary := some s1 } }) := by
  unfold phase4overall
  rw [hov, hcb]
  simp only [hapi]

theorem phase4overall_props (cfg : OrchCfg) (text : String) (r : RunState) :
    ∃ ext, (phase4overall cfg text r).2.calls = r.calls ++ ext ∧
      (∀ c ∈ ext, perSegIdx c = none) ∧
      (∀ s, r.task.overall_summary = some s →
        (phase4overall cfg text r).2.task.overall_summary = some s ∧
        ∀ c ∈ ext, isOverallCall c = false) := by
  cases hov : r.task.overall_summary with
  | some s0 =>
    rw [phase4overall_eq_some cfg text r s0 hov]
    obtain ⟨ext, hcalls, hper, hpres⟩ := phase5topics_props cfg text r
    refine ⟨ext, hcalls, fun c hc => (hper c hc).1, ?_⟩
    intro s hs
    refine ⟨?_, fun c hc => (hper c hc).2⟩
    rw [hpres, hov]
    exact hs
  | none =>
    cases hcb : runCb cfg.cb ProgressEvent.generatingOverall with
    | error e =>
      rw [phase4overall_eq_cberr cfg text r e hov hcb]
      refine ⟨[], by simp [saveRun], by simp, ?_⟩
      intro s hs
      simp at hs
    | ok u =>
      cases u
      cases hapi : cfg.api (ApiCall.overallSummary
          (buildSummariesText r.task.completed_segments)) with
      | error e =>
        rw [phase4overall_eq_apierr cfg text r e hov hcb hapi]
        refine ⟨[ApiCall.overallSummary
          (buildSummariesText r.task.completed_segments)],
          by simp [saveRun], ?_, ?_⟩
        · intro c hc
          rw [List.mem_singleton] at hc
          subst hc
          rfl
        · intro s hs
          simp at hs
      | ok s1 =>
        rw [phase4overall_eq_apiok cfg text r s1 hov hcb hapi]
        obtain ⟨ext, hcalls, hper, hpres⟩ := phase5topics_props cfg text
          (saveRun { r with
            calls := r.calls ++ [ApiCall.overallSummary
              (buildSummariesText r.task.completed_segments)],
            task := { r.task with overall_summary := some s1 } })
        refine ⟨ApiCall.overallSummary
          (buildSummariesText r.task.completed_segments) :: ext, ?_, ?_, ?_⟩
        · rw [hcalls]
          simp [saveRun]
        · intro c hc
          rcases List.mem_cons.mp hc with h | h
          · subst h
            rfl
          · exact (hper c h).1
        · intro s hs
          simp at hs

/-! ## Properties of the per-segment loop -/

theorem phase2Loop_cberr (cfg : OrchCfg) (total cc i : Nat) (seg : Segment)
    (rest : List Segment) (r : RunState) (e : String)
    (hcb : runCb cfg.cb (ProgressEvent.summarizingSeg
        (1 / 10 + (((cc : ℚ) + (i : ℚ)) / (total : ℚ)) * (7 / 10))
        seg.index total) = Except.error e) :
    phase2Loop cfg total cc i (seg :: rest) r =
      phase2Loop cfg total cc (i + 1) rest
        (saveRun { r with
          task := (r.task.add_failed_segment seg.index e r.time).1,
          time := (r.task.add_failed_segment seg.index e r.time).2 }) := by
  simp only [phase2Loop, hcb]

theorem phase2Loop_apierr (cfg : OrchCfg) (total cc i : Nat) (seg : Segment)
    (rest : List Segment) (r : RunState) (e : String)
    (hcb : runCb cfg.cb (ProgressEvent.summarizingSeg
        (1 / 10 + (((cc : ℚ) + (i : ℚ)) / (total : ℚ)) * (7 / 10))
        seg.index total) = Except.ok ())
    (hapi : cfg.api (ApiCall.summarizeSeg seg.index seg.content) =
      Except.error e) :
    phase2Loop cfg total cc i (seg :: rest) r =
      phase2Loop cfg total cc (i + 1) rest
        (saveRun { r with
          calls := r.calls ++ [ApiCall.summarizeSeg seg.index seg.content],
          task := (r.task.add_failed_segment seg.index e r.time).1,
          time := (r.task.add_failed_segment seg.index e r.time).2 }) := by
  simp only [phase2Loop, hcb, hapi]

theorem phase2Loop_ok (cfg : OrchCfg) (total cc i : Nat) (seg : Segment)
    (rest : List Segment) (r : RunState) (summary : String)
    (hcb : runCb cfg.cb (ProgressEvent.summarizingSeg
        (1 / 10 + (((cc : ℚ) + (i : ℚ)) / (total : ℚ)) * (7 / 10))
        seg.index total) = Except.ok ())
    (hapi : cfg.api (ApiCall.summarizeSeg seg.index seg.content) =
      Except.ok summary) :
    phase2Loop cfg total cc i (seg :: rest) r =
      phase2Loop cfg total cc (i + 1) rest
        (segSuccessStep cfg total
          (1 / 10 + (((cc : ℚ) + (i : ℚ)) / (total : ℚ)) * (7 / 10))
          seg summary
          { r with calls := r.calls ++
              [ApiCall.summarizeSeg seg.index seg.content] }) := by
  simp only [phase2Loop, hcb, hapi]

theorem segSuccessStep_props (cfg : OrchCfg) (total : Nat) (prog : ℚ)
    (seg : Segment) (summary : String) (r1 : RunState) :
    ∃ ext, (segSuccessStep cfg total prog seg summary r1).calls =
        r1.calls ++ ext ∧
      (∀ c ∈ ext, perSegIdx c = some seg.index ∧ sumSegIdx c = none) ∧
      (segSuccessStep cfg total prog seg summary r1).task.overall_summary =
        r1.task.overall_summary ∧
      (segSuccessStep cfg total prog seg summary r1).task.topics =
        r1.task.topics := by
  unfold segSuccessStep
  by_cases hkw : cfg.include_keywords = true
  · simp only [hkw, if_true]
    cases hk : cfg.api (ApiCall.extractKeywords seg.index seg.content) with
    | ok res =>
      simp only [hk]
      split
      · refine ⟨[ApiCall.extractKeywords seg.index seg.content], ?_, ?_, ?_, ?_⟩
        · simp [saveRun]
        · intro c hc
          rw [List.mem_singleton] at hc
          subst hc
          exact ⟨rfl, rfl⟩
        · simp [saveRun, (add_failed_segment_preserves _ _ _ _).1,
            (add_completed_segment_preserves _ _ _).1]
        · simp [saveRun, (add_failed_segment_preserves _ _ _ _).2.1,
            (add_completed_segment_preserves _ _ _).2]
      · refine ⟨[ApiCall.extractKeywords seg.index seg.content], ?_, ?_, ?_, ?_⟩
        · simp [saveRun]
        · intro c hc
          rw [List.mem_singleton] at hc
          subst hc
          exact ⟨rfl, rfl⟩
        · simp [saveRun, (add_completed_segment_preserves _ _ _).1]
        · simp [saveRun, (add_completed_segment_preserves _ _ _).2]
    | error e0 =>
      simp only [hk]
      split
      · refine ⟨[ApiCall.extractKeywords seg.index seg.content], ?_, ?_, ?_, ?_⟩
        · simp [saveRun]
        · intro c hc
          rw [List.mem_singleton] at hc
          subst hc
          exact ⟨rfl, rfl⟩
        · simp [saveRun, (add_failed_segment_preserves _ _ _ _).1,
            (add_completed_segment_preserves _ _ _).1]
        · simp [saveRun, (add_failed_segment_preserves _ _ _ _).2.1,
            (add_completed_segment_preserves _ _ _).2]
      · refine ⟨[ApiCall.extractKeywords seg.index seg.content], ?_, ?_, ?_, ?_⟩
        · simp [saveRun]
        · intro c hc
          rw [List.mem_singleton] at hc
          subst hc
          exact ⟨rfl, rfl⟩
        · simp [saveRun, (add_completed_segment_preserves _ _ _).1]
        · simp [saveRun, (add_completed_segment_preserves _ _ _).2]
  · simp only [hkw, if_false]
    split
    · refine ⟨[], by simp [saveRun], by simp, ?_, ?_⟩
      · simp [saveRun, (add_failed_segment_preserves _ _ _ _).1,
          (add_completed_segment_preserves _ _ _).1]
      · simp [saveRun, (add_failed_segment_preserves _ _ _ _).2.1,
          (add_completed_segment_preserves _ _ _).2]
    · refine ⟨[], by simp [saveRun], by simp, ?_, ?_⟩
      · simp [saveRun, (add_completed_segment_preserves _ _ _).1]
      · simp [saveRun, (add_completed_segment_preserves _ _ _).2]

theorem phase2Loop_props (cfg : OrchCfg) (total cc : Nat) :
    ∀ (rem : List Segment) (i : Nat) (r : RunState),
      ∃ ext, (phase2Loop cfg total cc i rem r).calls = r.calls ++ ext ∧
        (∀ c ∈ ext, (perSegIdx c).isSome = true) ∧
        (phase2Loop cfg total cc i rem r).task.overall_summary =
          r.task.overall_summary ∧
        (phase2Loop cfg total cc i rem r).task.topics = r.task.topics := by
  intro rem
  induction rem with
  | nil =>
    intro i r
    exact ⟨[], by simp [phase2Loop], by simp, rfl, rfl⟩
  | cons seg rest ih =>
    intro i r
    have key : ∀ (r' : RunState) (δ : List ApiCall),
        r'.calls = r.calls ++ δ →
        (∀ c ∈ δ, (perSegIdx c).isSome = true) →
        r'.task.overall_summary = r.task.overall_summary →
        r'.task.topics = r.task.topics →
        ∃ ext, (phase2Loop cfg total cc (i + 1) rest r').calls =
            r.calls ++ ext ∧
          (∀ c ∈ ext, (perSegIdx c).isSome = true) ∧
          (phase2Loop cfg total cc (i + 1) rest r').task.overall_summary =
            r.task.overall_summary ∧
          (phase2Loop cfg total cc (i + 1) rest r').task.topics =
            r.task.topics := by
      intro r' δ hδ hper hov htp
      obtain ⟨ext', e1, e2, e3, e4⟩ := ih (i + 1) r'
      refine ⟨δ ++ ext', ?_, ?_, ?_, ?_⟩
      · rw [e1, hδ, List.append_assoc]
      · intro c hc
        rcases List.mem_append.mp hc with h | h
        · exact hper c h
        · exact e2 c h
      · rw [e3, hov]
      · rw [e4, htp]
    cases hcb : runCb cfg.cb (ProgressEvent.summarizingSeg
        (1 / 10 + (((cc : ℚ) + (i : ℚ)) / (total : ℚ)) * (7 / 10))
        seg.index total) with
    | error e =>
      rw [phase2Loop_cberr cfg total cc i seg rest r e hcb]
      exact key _ [] (by simp [saveRun]) (by simp)
        (by simp [saveRun, (add_failed_segment_preserves _ _ _ _).1])
        (by simp [saveRun, (add_failed_segment_preserves _ _ _ _).2.1])
    | ok u =>
      cases u
      cases hapi : cfg.api (ApiCall.summarizeSeg seg.index seg.content) with
      | error e =>
        rw [phase2Loop_apierr cfg total cc i seg rest r e hcb hapi]
        exact key _ [ApiCall.summarizeSeg seg.index seg.content]
          (by simp [saveRun]) (by simp [perSegIdx])
          (by simp [saveRun, (add_failed_segment_preserves _ _ _ _).1])
          (by simp [saveRun, (add_failed_segment_preserves _ _ _ _).2.1])
      | ok summary =>
        rw [phase2Loop_ok cfg total cc i seg rest r summary hcb hapi]
        obtain ⟨extS, s1, s2, s3, s4⟩ := segSuccessStep_props cfg total
          (1 / 10 + (((cc : ℚ) + (i : ℚ)) / (total : ℚ)) * (7 / 10)) seg summary
          { r with calls := r.calls ++
              [ApiCall.summarizeSeg seg.index seg.content] }
        refine key _ (ApiCall.summarizeSeg seg.index seg.content :: extS)
          ?_ ?_ ?_ ?_
        · rw [s1]
          simp
        · intro c hc
          rcases List.mem_cons.mp hc with h | h
          · subst h
            rfl
          · rw [(s2 c h).1]
            rfl
        · rw [s3]
        · rw [s4]

theorem phase2Loop_calls_none (cfg : OrchCfg) (hcb : cfg.cb = none)
    (total cc : Nat) :
    ∀ (rem : List Segment) (i : Nat) (r : RunState),
      ∃ ext, (phase2Loop cfg total cc i rem r).calls = r.calls ++ ext ∧
        ext.filterMap sumSegIdx = rem.map Segment.index ∧
        (∀ j ∈ ext.filterMap perSegIdx, j ∈ rem.map Segment.index) := by
  have hrc : ∀ ev, runCb cfg.cb ev = Except.ok () := by
    intro ev
    rw [hcb]
    rfl
  intro rem
  induction rem with
  | nil =>
    intro i r
    exact ⟨[], by simp [phase2Loop], rfl, by simp⟩
  | cons seg rest ih =>
    intro i r
    have key : ∀ (r' : RunState) (δ : List ApiCall),
        r'.calls = r.calls ++ δ →
        δ.filterMap sumSegIdx = [seg.index] →
        (∀ j ∈ δ.filterMap perSegIdx, j = seg.index) →
        ∃ ext, (phase2Loop cfg total cc (i + 1) rest r').calls =
            r.calls ++ ext ∧
          ext.filterMap sumSegIdx = (seg :: rest).map Segment.index ∧
          (∀ j ∈ ext.filterMap perSegIdx,
            j ∈ (seg :: rest).map Segment.index) := by
      intro r' δ hδ hsum hper
      obtain ⟨ext', e1, e2, e3⟩ := ih (i + 1) r'
      refine ⟨δ ++ ext', ?_, ?_, ?_⟩
      · rw [e1, hδ, List.append_assoc]
      · rw [List.filterMap_append, hsum, e2, List.map_cons]
        rfl
      · intro j hj
        rw [List.filterMap_append, List.mem_append] at hj
        rw [List.map_cons]
        rcases hj with h | h
        · exact List.mem_cons.mpr (Or.inl (hper j h))
        · exact List.mem_cons.mpr (Or.inr (e3 j h))
    cases hapi : cfg.api (ApiCall.summarizeSeg seg.index seg.content) with
    | error e =>
      rw [phase2Loop_apierr cfg total cc i seg rest r e (hrc _) hapi]
      exact key _ [ApiCall.summarizeSeg seg.index seg.content]
        (by simp [saveRun]) (by simp [sumSegIdx]) (by simp [perSegIdx])
    | ok summary =>
      rw [phase2Loop_ok cfg total cc i seg rest r summary (hrc _) hapi]
      obtain ⟨extS, s1, s2, _, _⟩ := segSuccessStep_props cfg total
        (1 / 10 + (((cc : ℚ) + (i : ℚ)) / (total : ℚ)) * (7 / 10)) seg summary
        { r with calls := r.calls ++
            [ApiCall.summarizeSeg seg.index seg.content] }
      have hnil : extS.filterMap sumSegIdx = [] := by
        rw [List.filterMap_eq_nil_iff]
        intro c hc
        exact (s2 c hc).2
      refine key _ (ApiCall.summarizeSeg seg.index seg.content :: extS)
        ?_ ?_ ?_
      · rw [s1]
        simp
      · rw [List.filterMap_cons]
        simp [sumSegIdx, hnil]
      · intro j hj
        rw [List.filterMap_cons] at hj
        simp only [perSegIdx] at hj
        rcases List.mem_cons.mp hj with h | h
        · exact h
        · rw [List.mem_filterMap] at h
          obtain ⟨c, hc, hcj⟩ := h
          rw [(s2 c hc).1] at hcj
          exact ((Option.some.injEq _ _).mp hcj).symm

/-! ## Whole-run preservation of an already-set overall summary -/


/-! ## Whole-run preservation of an already-set overall summary -/

theorem summarizeRest_overall (cfg : OrchCfg) (text : String)
    (segments : List Segment) (r1 : RunState) (s : String)
    (hov : r1.task.overall_summary = some s) :
    (summarizeRest cfg text segments r1).2.task.overall_summary = some s ∧
    ∃ ext, (summarizeRest cfg text segments r1).2.calls = r1.calls ++ ext ∧
      ∀ c ∈ ext, isOverallCall c = false := by
  unfold summarizeRest
  cases hcb : runCb cfg.cb (ProgressEvent.preparing
      (get_next_segments_to_process r1.task segments).length) with
  | error e =>
    simp only [hcb]
    exact ⟨hov, [], by simp, by simp⟩
  | ok u =>
    cases u
    simp only [hcb]
    obtain ⟨ext2, l1, l2, l3, _⟩ := phase2Loop_props cfg segments.length
      r1.task.completed_segments.length
      (get_next_segments_to_process r1.task segments) 0 r1
    by_cases hgate : (phase2Loop cfg segments.length
        r1.task.completed_segments.length 0
        (get_next_segments_to_process r1.task segments) r1).task.completed_segments.length ≠
        segments.length
    · rw [if_pos hgate]
      have h3 := phase3interim_props cfg text segments.length
        (phase2Loop cfg segments.length r1.task.completed_segments.length 0
          (get_next_segments_to_process r1.task segments) r1)
      refine ⟨by rw [h3.2, l3, hov], ext2, ?_, ?_⟩
      · rw [h3.1, l1]
      · intro c hc
        exact perSeg_not_overall c (l2 c hc)
    · rw [if_neg hgate]
      obtain ⟨ext4, p1, _, p3⟩ := phase4overall_props cfg text
        (phase2Loop cfg segments.length r1.task.completed_segments.length 0
          (get_next_segments_to_process r1.task segments) r1)
      obtain ⟨pov, pnoov⟩ := p3 s (by rw [l3, hov])
      refine ⟨pov, ext2 ++ ext4, ?_, ?_⟩
      · rw [p1, l1, List.append_assoc]
      · intro c hc
        rcases List.mem_append.mp hc with h | h
        · exact perSeg_not_overall c (l2 c h)
        · exact pnoov c h

theorem summarizeBody_overall (cfg : OrchCfg) (text : String)
    (task0 : TaskProgress) (time0 : Nat) (s : String)
    (h : task0.overall_summary = some s) :
    (summarizeBody cfg text task0 time0).2.task.overall_summary = some s ∧
    ∀ c ∈ (summarizeBody cfg text task0 time0).2.calls,
      isOverallCall c = false := by
  unfold summarizeBody
  cases hc1 : (if task0.total_segments = 0 then
      runCb cfg.cb ProgressEvent.segmenting else Except.ok ()) with
  | error e =>
    simp only [hc1]
    exact ⟨h, by simp⟩
  | ok u =>
    cases u
    simp only [hc1]
    by_cases htz : task0.total_segments = 0
    · rw [if_pos htz]
      obtain ⟨hov, ext, hcalls, hnoov⟩ := summarizeRest_overall cfg text
        (segment_by_topic cfg.min_length cfg.max_length cfg.overlap_ratio text)
        (saveRun ⟨{ task0 with
            total_segments := (segment_by_topic cfg.min_length cfg.max_length
              cfg.overlap_ratio text).length,
            status := "segments_in_progress" }, [], [], time0⟩) s h
      refine ⟨hov, ?_⟩
      intro c hc
      rw [hcalls] at hc
      simp only [saveRun, List.nil_append] at hc
      exact hnoov c hc
    · rw [if_neg htz]
      obtain ⟨hov, ext, hcalls, hnoov⟩ := summarizeRest_overall cfg text
        (segment_by_topic cfg.min_length cfg.max_length cfg.overlap_ratio text)
        ⟨task0, [], [], time0⟩ s h
      refine ⟨hov, ?_⟩
      intro c hc
      rw [hcalls] at hc
      simp only [List.nil_append] at hc
      exact hnoov c hc

/-! ## C2: at-most-once overall summary -/

/-- C2: once a task's `overall_summary` is set, any further invocation
of `summarize_transcript` on it — whatever the oracle, callback,
configuration flags or input text do — never issues the
overall-synthesis generation call and leaves `overall_summary`
unchanged in the final task state (so the field is written at most once
per task). -/
theorem overall_summary_at_most_once (cfg : OrchCfg) (text : String)
    (task0 : TaskProgress) (time0 : Nat) (s : String)
    (h : task0.overall_summary = some s) :
    (summarize_transcript cfg text task0 time0).2.task.overall_summary =
      some s ∧
    ∀ c ∈ (summarize_transcript cfg text task0 time0).2.calls,
      isOverallCall c = false := by
  have hb := summarizeBody_overall cfg text task0 time0 s h
  unfold summarize_transcript
  rcases hres : summarizeBody cfg text task0 time0 with ⟨out, r⟩
  rw [hres] at hb
  cases out with
  | ok res =>
    simpa using hb
  | error e =>
    simpa using hb

/-- Witness for C2 on a concrete task whose overall summary is set. -/
theorem overall_summary_at_most_once_witness :
    ((summarize_transcript cfgC9 textSmall
      { taskC1 with overall_summary := some "done" } 50).2.task.overall_summary =
      some "done") ∧
    ∀ c ∈ (summarize_transcript cfgC9 textSmall
      { taskC1 with overall_summary := some "done" } 50).2.calls,
      isOverallCall c = false :=
  overall_summary_at_most_once cfgC9 textSmall
    { taskC1 with overall_summary := some "done" } 50 "done" rfl

/-! ## C8: top-level exception handling -/

/-- C8: if an exception escapes any phase of the orchestrator, then
before it reaches the caller the task's `error_info` is set to the
error's message, the status is set to `failed`, the task is persisted
in exactly that state (it is the last save), the fields already
recorded at the moment of the exception — `completed_segments`,
`overall_summary`, `topics` — are retained unchanged from the state the
body reached, and the same exception is re-raised (the body's error is
the one returned). -/
theorem summarize_failure_persists_error_state (cfg : OrchCfg)
    (text : String) (task0 : TaskProgress) (time0 : Nat) (msg : String)
    (h : (summarize_transcript cfg text task0 time0).1 = Except.error msg) :
    ((summarize_transcript cfg text task0 time0).2.task.error_info =
      some msg) ∧
    ((summarize_transcript cfg text task0 time0).2.task.status = "failed") ∧
    ((summarize_transcript cfg text task0 time0).2.saves.getLast? =
      some (summarize_transcript cfg text task0 time0).2.task) ∧
    ((summarize_transcript cfg text task0 time0).2.task.completed_segments =
      (summarizeBody cfg text task0 time0).2.task.completed_segments) ∧
    ((summarize_transcript cfg text task0 time0).2.task.overall_summary =
      (summarizeBody cfg text task0 time0).2.task.overall_summary) ∧
    ((summarize_transcript cfg text task0 time0).2.task.topics =
      (summarizeBody cfg text task0 time0).2.task.topics) ∧
    ((summarizeBody cfg text task0 time0).1 = Except.error msg) := by
  unfold summarize_transcript at h ⊢
  rcases hres : summarizeBody cfg text task0 time0 with ⟨out, r⟩
  rw [hres] at h
  cases out with
  | ok res => simp at h
  | error e =>
    have hmsg : e = msg := by simpa using h
    subst hmsg
    refine ⟨rfl, rfl, ?_, rfl, rfl, rfl, rfl⟩
    simp [List.getLast?_concat]

/-- Witness for C8: a callback that raises during the segmentation
phase drives a concrete run into the failure handler. -/
theorem summarize_failure_persists_error_state_witness :
    ((summarize_transcript cfgC8 textSmall taskFresh 100).2.task.error_info =
      some "boom") ∧
    ((summarize_transcript cfgC8 textSmall taskFresh 100).2.task.status =
      "failed") ∧
    ((summarize_transcript cfgC8 textSmall taskFresh 100).2.saves.getLast? =
      some (summarize_transcript cfgC8 textSmall taskFresh 100).2.task) ∧
    ((summarize_transcript cfgC8 textSmall taskFresh 100).2.task.completed_segments =
      (summarizeBody cfgC8 textSmall taskFresh 100).2.task.completed_segments) ∧
    ((summarize_transcript cfgC8 textSmall taskFresh 100).2.task.overall_summary =
      (summarizeBody cfgC8 textSmall taskFresh 100).2.task.overall_summary) ∧
    ((summarize_transcript cfgC8 textSmall taskFresh 100).2.task.topics =
      (summarizeBody cfgC8 textSmall taskFresh 100).2.task.topics) ∧
    ((summarizeBody cfgC8 textSmall taskFresh 100).1 = Except.error "boom") :=
  summarize_failure_persists_error_state cfgC8 textSmall taskFresh 100 "boom"
    rfl

/-! ## Calls issued during a resumed run (no callback) -/

theorem perSegIdx_none_sum (c : ApiCall) (h : perSegIdx c = none) :
    sumSegIdx c = none := by
  cases c <;> simp_all [perSegIdx, sumSegIdx]

theorem summarizeRest_calls_none (cfg : OrchCfg) (text : String)
    (segments : List Segment) (r1 : RunState) (hcb : cfg.cb = none) :
    ∃ ext, (summarizeRest cfg text segments r1).2.calls = r1.calls ++ ext ∧
      ext.filterMap sumSegIdx =
        (get_next_segments_to_process r1.task segments).map Segment.index ∧
      (∀ j ∈ ext.filterMap perSegIdx,
        j ∈ (get_next_segments_to_process r1.task segments).map
          Segment.index) := by
  unfold summarizeRest
  have hok : runCb cfg.cb (ProgressEvent.preparing
      (get_next_segments_to_process r1.task segments).length) = Except.ok () := by
    rw [hcb]
    rfl
  simp only [hok]
  obtain ⟨ext2, l1, l2, l3⟩ := phase2Loop_calls_none cfg hcb segments.length
    r1.task.completed_segments.length
    (get_next_segments_to_process r1.task segments) 0 r1
  by_cases hgate : (phase2Loop cfg segments.length
      r1.task.completed_segments.length 0
      (get_next_segments_to_process r1.task segments) r1).task.completed_segments.length ≠
      segments.length
  · rw [if_pos hgate]
    have h3 := phase3interim_props cfg text segments.length
      (phase2Loop cfg segments.length r1.task.completed_segments.length 0
        (get_next_segments_to_process r1.task segments) r1)
    exact ⟨ext2, by rw [h3.1, l1], l2, l3⟩
  · rw [if_neg hgate]
    obtain ⟨ext4, p1, p2, _⟩ := phase4overall_props cfg text
      (phase2Loop cfg segments.length r1.task.completed_segments.length 0
        (get_next_segments_to_process r1.task segments) r1)
    have hnil : ext4.filterMap sumSegIdx = [] := by
      rw [List.filterMap_eq_nil_iff]
      intro c hc
      exact perSegIdx_none_sum c (p2 c hc)
    refine ⟨ext2 ++ ext4, by rw [p1, l1, List.append_assoc], ?_, ?_⟩
    · rw [List.filterMap_append, hnil, l2, List.append_nil]
    · intro j hj
      rw [List.filterMap_append, List.mem_append] at hj
      rcases hj with h | h
      · exact l3 j h
      · rw [List.mem_filterMap] at h
        obtain ⟨c, hc, hcj⟩ := h
        rw [p2 c hc] at hcj
        cases hcj

theorem summarizeBody_calls_nz (cfg : OrchCfg) (text : String)
    (task0 : TaskProgress) (time0 : Nat)
    (htz : task0.total_segments ≠ 0) :
    summarizeBody cfg text task0 time0 =
      summarizeRest cfg text
        (segment_by_topic cfg.min_length cfg.max_length cfg.overlap_ratio text)
        ⟨task0, [], [], time0⟩ := by
  unfold summarizeBody
  rw [if_neg htz, if_neg htz]

/-! ## C1: resumable checkpointing -/

/-- C1: for a resumed task with `total_segments = 4`, completed indices
exactly 1 and 3 and failed index 2, re-invoking `summarize_transcript`
on a transcript that again segments into 4 pieces issues the
per-segment summary calls exactly for indices 2 and 4 (the previously
failed index is automatically re-included) and issues no per-segment
generation call — summary or keyword extraction — for index 1 or 3. -/
theorem summarize_resumes_only_incomplete_segments (cfg : OrchCfg)
    (text : String) (task0 : TaskProgress) (time0 : Nat)
    (hcb : cfg.cb = none)
    (htot : task0.total_segments = 4)
    (hcomp : task0.completed_segments.map SegmentData.index = [1, 3])
    (_hfail : 2 ∈ task0.failed_segments.map FailedData.index)
    (hlen : (segment_by_topic cfg.min_length cfg.max_length
      cfg.overlap_ratio text).length = 4) :
    ((summarize_transcript cfg text task0 time0).2.calls.filterMap
      sumSegIdx = [2, 4]) ∧
    (∀ j ∈ (summarize_transcript cfg text task0 time0).2.calls.filterMap
      perSegIdx, j = 2 ∨ j = 4) := by
  have hidx := segment_by_topic_indices cfg.min_length cfg.max_length
    cfg.overlap_ratio text
  rw [hlen] at hidx
  have hidx4 : (segment_by_topic cfg.min_length cfg.max_length
      cfg.overlap_ratio text).map Segment.index = [1, 2, 3, 4] := by
    rw [hidx]
    rfl
  have hcompb : ∀ k, task0.is_segment_completed k = [1, 3].any (· == k) := by
    intro k
    have hm : ∀ (l : List SegmentData), l.any (fun s => s.index == k) =
        (l.map SegmentData.index).any (fun x => x == k) := by
      intro l
      induction l with
      | nil => rfl
      | cons x xs ih => simp [List.any_cons, ih]
    unfold TaskProgress.is_segment_completed
    rw [hm, hcomp]
  rcases hsg : segment_by_topic cfg.min_length cfg.max_length
      cfg.overlap_ratio text with _ | ⟨a, rest1⟩
  · rw [hsg] at hlen
    simp at hlen
  rcases rest1 with _ | ⟨b, rest2⟩
  · rw [hsg] at hlen
    simp at hlen
  rcases rest2 with _ | ⟨c, rest3⟩
  · rw [hsg] at hlen
    simp at hlen
  rcases rest3 with _ | ⟨d, rest4⟩
  · rw [hsg] at hlen
    simp at hlen
  rcases rest4 with _ | ⟨e, rest5⟩
  case cons.cons.cons.cons.cons =>
    rw [hsg] at hlen
    simp at hlen
  rw [hsg] at hidx4
  simp only [List.map_cons, List.map_nil, List.cons.injEq, and_true] at hidx4
  obtain ⟨ha, hb, hc2, hd⟩ := hidx4
  have e1 : task0.is_segment_completed a.index = true := by
    rw [ha, hcompb]
    rfl
  have e2 : task0.is_segment_completed b.index = false := by
    rw [hb, hcompb]
    rfl
  have e3 : task0.is_segment_completed c.index = true := by
    rw [hc2, hcompb]
    rfl
  have e4 : task0.is_segment_completed d.index = false := by
    rw [hd, hcompb]
    rfl
  have hrem : get_next_segments_to_process task0 (segment_by_topic
      cfg.min_length cfg.max_length cfg.overlap_ratio text) = [b, d] := by
    rw [hsg]
    unfold get_next_segments_to_process
    simp [List.filter, e1, e2, e3, e4]
  have htc : (summarize_transcript cfg text task0 time0).2.calls =
      (summarizeBody cfg text task0 time0).2.calls := by
    unfold summarize_transcript
    rcases hres : summarizeBody cfg text task0 time0 with ⟨out, r⟩
    cases out <;> rfl
  have hbe := summarizeBody_calls_nz cfg text task0 time0
    (by rw [htot]; decide)
  obtain ⟨ext, hcalls, hsum, hper⟩ := summarizeRest_calls_none cfg text
    (segment_by_topic cfg.min_length cfg.max_length cfg.overlap_ratio text)
    ⟨task0, [], [], time0⟩ hcb
  have hremr : get_next_segments_to_process
      (⟨task0, [], [], time0⟩ : RunState).task
      (segment_by_topic cfg.min_length cfg.max_length cfg.overlap_ratio text) =
      [b, d] := hrem
  rw [hremr] at hsum hper
  rw [htc, hbe, hcalls]
  simp only [List.nil_append]
  constructor
  · rw [hsum, List.map_cons, List.map_cons, List.map_nil, hb, hd]
  · intro j hj
    have := hper j hj
    rw [List.map_cons, List.map_cons, List.map_nil, hb, hd] at this
    rcases List.mem_cons.mp this with h | h
    · exact Or.inl h
    · rcases List.mem_cons.mp h with h2 | h2
      · exact Or.inr h2
      · cases h2

/-- Witness for C1 on a concrete 4-segment transcript and the concrete
resumed task `taskC1`. -/
theorem summarize_resumes_only_incomplete_segments_witness :
    ((summarize_transcript cfgC1 textC1 taskC1 30).2.calls.filterMap
      sumSegIdx = [2, 4]) ∧
    (∀ j ∈ (summarize_transcript cfgC1 textC1 taskC1 30).2.calls.filterMap
      perSegIdx, j = 2 ∨ j = 4) :=
  summarize_resumes_only_incomplete_segments cfgC1 textC1 taskC1 30
    rfl rfl rfl (by decide) (by decide)
